import Mathlib

/-!
Marketplace page (`js/marketplace.js`): filter, pagination, cart, ingestion.

A shallow embedding of the marketplace script.  The module state of the script
(`allWebsites`, `filteredWebsites`, `currentPage`, `cart`) is passed explicitly.

Modelling conventions
* A JavaScript number is `JSNum`: `NaN`, the two infinities, or a finite value
  held as a rational.  Every operation that produces a number (`parseFloat`,
  `parseInt`, the product) rounds its exact result to binary64 with `round64`:
  to nearest, a tie to even, an overflow to an infinity.  The sign of zero is not
  part of the model.
* A JavaScript string is a `String`, read through its list of characters.
  `toLowerCase` and `toUpperCase` convert the letters `A`-`Z` / `a`-`z` and leave
  every other character unchanged, which is what the script does on ASCII text;
  a statement that depends on the conversion of other letters says that the text
  is ASCII.
* A cell of a spreadsheet row is a `JSVal`: `undefined`, `null`, a boolean, a
  number or a string.
* A record is a plain object, held as the list of its own properties.  A read
  gives the own property; for a key the object does not have it gives
  `undefined`, as the script does for every key that is not a property name of
  `Object.prototype` (`objectPrototypeNames`).
* A call of a string method on a value that is not a string raises a `TypeError`;
  functions that can raise return `Except JSError _`.
* DOM reads, alerts, toasts, storage writes and rendering are outside the model;
  only the values they read or the state they leave are modelled.
-/

namespace Marketplace

/-! ## JavaScript numbers -/

/-- A JavaScript number: `NaN`, `-Infinity`, a finite value, `Infinity`. -/
inductive JSNum where
  | nan
  | negInf
  | fin (q : ℚ)
  | posInf
  deriving DecidableEq

namespace JSNum

/-- The relational operator `a <= b` on numbers: false as soon as one side is `NaN`. -/
def le : JSNum → JSNum → Bool
  | nan, _ => false
  | _, nan => false
  | negInf, _ => true
  | _, posInf => true
  | fin a, fin b => decide (a ≤ b)
  | fin _, negInf => false
  | posInf, negInf => false
  | posInf, fin _ => false

/-- The relational operator `a >= b` on numbers. -/
def ge (a b : JSNum) : Bool := le b a

/-- The relational operator `a < b` on numbers. -/
def lt : JSNum → JSNum → Bool
  | nan, _ => false
  | _, nan => false
  | posInf, _ => false
  | _, negInf => false
  | fin a, fin b => decide (a < b)
  | negInf, fin _ => true
  | negInf, posInf => true
  | fin _, posInf => true

/-- The relational operator `a > b` on numbers. -/
def gt (a b : JSNum) : Bool := lt b a

/-- The global function `isNaN` on a number. -/
def isNaN : JSNum → Bool
  | nan => true
  | _ => false

/-- The conversion `ToBoolean` on a number: `0` and `NaN` are falsy. -/
def truthy : JSNum → Bool
  | nan => false
  | fin q => decide (q ≠ 0)
  | _ => true

/-- The sign of a rational as an infinity, `NaN` for zero (`Infinity * 0`). -/
def infOfSign (q : ℚ) : JSNum :=
  if q = 0 then nan else if 0 < q then posInf else negInf

/-- Round to the nearest integer, a tie going to the even one. -/
def roundHalfEven (y : ℚ) : Int :=
  if y - (⌊y⌋ : ℚ) < 1 / 2 then ⌊y⌋
  else if 1 / 2 < y - (⌊y⌋ : ℚ) then ⌊y⌋ + 1
  else if ⌊y⌋ % 2 = 0 then ⌊y⌋ else ⌊y⌋ + 1

/-- The binary exponent binary64 gives a non-zero value: the integer part of its
base-2 logarithm, and `-1022` for a smaller, subnormal one. -/
def exponent64 (x : ℚ) : Int := max (Int.log 2 |x|) (-1022)

/-- The nearest multiple, for a non-zero value, of the unit in the last of the 53
significant bits of its binade, a tie going to the even multiple. -/
def nearest64 (x : ℚ) : ℚ :=
  (roundHalfEven (x / (2 : ℚ) ^ (exponent64 x - 52)) : ℚ) * (2 : ℚ) ^ (exponent64 x - 52)

/-- The binary64 value of a real number: zero for zero, else the nearest
multiple of the unit in the last place, and an infinity when that multiple
reaches `2 ^ 1024`. -/
def round64 (x : ℚ) : JSNum :=
  if x = 0 then fin 0
  else if (2 : ℚ) ^ (1024 : ℕ) ≤ |nearest64 x| then (if 0 < x then posInf else negInf)
  else fin (nearest64 x)

/-- The product `a * b`: the exact product of two finite values rounded to
binary64. -/
def mul : JSNum → JSNum → JSNum
  | nan, _ => nan
  | _, nan => nan
  | fin a, fin b => round64 (a * b)
  | posInf, fin b => infOfSign b
  | fin a, posInf => infOfSign a
  | negInf, fin b => infOfSign (-b)
  | fin a, negInf => infOfSign (-a)
  | posInf, posInf => posInf
  | negInf, negInf => posInf
  | posInf, negInf => negInf
  | negInf, posInf => negInf

/-- A natural number as a JavaScript number. -/
def ofNat (n : Nat) : JSNum := fin (n : ℚ)

end JSNum

/-! ## JavaScript strings -/

/-- The characters `WhiteSpace` and `LineTerminator` of ECMAScript, the ones
`trim`, `parseInt` and `parseFloat` skip. -/
def isWhiteSpace (c : Char) : Bool :=
  let n := c.toNat
  n == 0x09 || n == 0x0A || n == 0x0B || n == 0x0C || n == 0x0D || n == 0x20 ||
  n == 0xA0 || n == 0x1680 || (0x2000 ≤ n && n ≤ 0x200A) || n == 0x2028 ||
  n == 0x2029 || n == 0x202F || n == 0x205F || n == 0x3000 || n == 0xFEFF

/-- The method `String.prototype.trim` on a list of characters. -/
def trimChars (cs : List Char) : List Char :=
  ((cs.dropWhile isWhiteSpace).reverse.dropWhile isWhiteSpace).reverse

/-- The method `String.prototype.trim`. -/
def trim (s : String) : String := ⟨trimChars s.data⟩

/-- The method `String.prototype.toLowerCase` (letters `A`-`Z`). -/
def toLowerCase (s : String) : String := ⟨s.data.map Char.toLower⟩

/-- The method `String.prototype.toUpperCase` (letters `a`-`z`). -/
def toUpperCase (s : String) : String := ⟨s.data.map Char.toUpper⟩

/-- Whether `hay` contains `needle` as a contiguous run, on lists of characters. -/
def includesChars : List Char → List Char → Bool
  | [], needle => needle.isEmpty
  | c :: hay, needle => needle.isPrefixOf (c :: hay) || includesChars hay needle

/-- The method `String.prototype.includes`. -/
def includes (hay needle : String) : Bool := includesChars hay.data needle.data

/-- The call `s.replace(/,/g, '')`: every comma removed. -/
def removeCommas (s : String) : String := ⟨s.data.filter (fun c => c != ',')⟩

/-! ## Numeric literals -/

/-- The value of one decimal digit character. -/
def digitVal (c : Char) : Nat := c.toNat - 48

/-- The value of a run of decimal digits, most significant first. -/
def digitsVal (ds : List Char) : Nat := ds.foldl (fun acc c => acc * 10 + digitVal c) 0

/-- Split off an optional sign: `true` for a leading minus. -/
def splitSign : List Char → Bool × List Char
  | '-' :: cs => (true, cs)
  | '+' :: cs => (false, cs)
  | cs => (false, cs)

/-- The decimal exponent of an `ExponentPart` at the head of `cs`, `0` when `cs`
does not start with one (`e` or `E`, an optional sign, at least one digit). -/
def exponentPart : List Char → Int
  | [] => 0
  | c :: cs =>
    if c == 'e' || c == 'E' then
      let (neg, r) := splitSign cs
      let ds := r.takeWhile Char.isDigit
      if ds.isEmpty then 0 else if neg then -(digitsVal ds : Int) else (digitsVal ds : Int)
    else 0

/-- The rational `m * 10 ^ e`. -/
def scale10 (m : Nat) (e : Int) : ℚ :=
  if 0 ≤ e then (m : ℚ) * (10 : ℚ) ^ e.toNat else (m : ℚ) / (10 : ℚ) ^ (-e).toNat

/-- The value of a decimal literal read as integer digits `ip`, fraction digits
`fp` and the characters `rest` that follow them: `NaN` when there is no digit at
all, else the digits scaled by the exponent part at the head of `rest` and
rounded to binary64. -/
def decimalLiteral (neg : Bool) (ip fp rest : List Char) : JSNum :=
  if ip.isEmpty && fp.isEmpty then .nan
  else
    let v := scale10 (digitsVal (ip ++ fp)) (exponentPart rest - (fp.length : Int))
    JSNum.round64 (if neg then -v else v)

/-- The literal after its integer digits `ip`: a point, when `rest` starts with
one, is followed by the fraction digits. -/
def afterInteger (neg : Bool) (ip rest : List Char) : JSNum :=
  match rest with
  | '.' :: t => decimalLiteral neg ip (t.takeWhile Char.isDigit) (t.dropWhile Char.isDigit)
  | _ => decimalLiteral neg ip [] rest

/-- The literal after its sign: `Infinity`, or a decimal literal. -/
def signedLiteral (neg : Bool) (r : List Char) : JSNum :=
  if "Infinity".data.isPrefixOf r then (if neg then .negInf else .posInf)
  else afterInteger neg (r.takeWhile Char.isDigit) (r.dropWhile Char.isDigit)

/-- The function `parseFloat` on a string: leading white space is skipped, then the longest prefix
that is a `StrDecimalLiteral` is read; `NaN` when there is none. -/
def parseFloatChars (cs : List Char) : JSNum :=
  let sr := splitSign (cs.dropWhile isWhiteSpace)
  signedLiteral sr.1 sr.2

/-- The value of one digit character in radix 16, if it is one. -/
def hexVal (c : Char) : Option Nat :=
  if c.isDigit then some (c.toNat - 48)
  else if 'a' ≤ c ∧ c ≤ 'f' then some (c.toNat - 87)
  else if 'A' ≤ c ∧ c ≤ 'F' then some (c.toNat - 55)
  else none

/-- The function `parseInt` on a string with no radix argument: leading white space is skipped, a
sign is read, a `0x` or `0X` prefix selects radix 16, then the longest run of
digits of the radix is read and its value rounded to binary64; `NaN` when that
run is empty. -/
def parseIntChars (cs : List Char) : JSNum :=
  let (neg, r) := splitSign (cs.dropWhile isWhiteSpace)
  let sign : ℚ := if neg then -1 else 1
  match r with
  | '0' :: x :: t =>
    if x == 'x' || x == 'X' then
      let ds := t.takeWhile (fun c => (hexVal c).isSome)
      if ds.isEmpty then .nan
      else JSNum.round64
        (sign * (ds.foldl (fun acc c => acc * 16 + (hexVal c).getD 0) 0 : Nat))
    else
      JSNum.round64 (sign * (digitsVal (r.takeWhile Char.isDigit) : Nat))
  | _ =>
    let ds := r.takeWhile Char.isDigit
    if ds.isEmpty then .nan else JSNum.round64 (sign * (digitsVal ds : Nat))

/-! ## JavaScript values -/

/-- A scalar value of a spreadsheet cell or of a record field. -/
inductive JSVal where
  | undefined
  | null
  | bool (b : Bool)
  | num (x : JSNum)
  | str (s : String)
  deriving DecidableEq

/-- An exception raised by the script. -/
inductive JSError where
  | typeError
  deriving DecidableEq

/-- The digits `s` and the decimal exponent `n` of `Number::toString` for the
positive value `x`, when `k` digits do: `s` has `k` digits and `s * 10 ^ (n - k)`
rounds to `x`; of two such `s` the one closer to `x` is taken. -/
def digitsWith (x : ℚ) (k : Nat) (n : Int) : Option (Nat × Int) :=
  let q : ℚ := (10 : ℚ) ^ (n - (k : Int))
  let lo : Nat := ⌊x / q⌋₊
  let ok : Nat → Bool := fun s =>
    decide (10 ^ (k - 1) ≤ s) && decide (s < 10 ^ k) &&
      (JSNum.round64 ((s : ℚ) * q) == .fin x)
  if ok lo && ok (lo + 1) then
    (if x - (lo : ℚ) * q < ((lo + 1 : Nat) : ℚ) * q - x then some (lo, n)
     else if ((lo + 1 : Nat) : ℚ) * q - x < x - (lo : ℚ) * q then some (lo + 1, n)
     else if lo % 2 = 0 then some (lo, n) else some (lo + 1, n))
  else if ok lo then some (lo, n)
  else if ok (lo + 1) then some (lo + 1, n)
  else none

/-- The digits `s` and the decimal exponent `n` of `Number::toString` for the
positive value `x`: the fewest digits, from 1 to 17, that round to `x`.  For an
`x` that is no binary64 value, which no JavaScript number is, its first 17
digits. -/
def shortestDigits (x : ℚ) : Nat × Int :=
  let n0 : Int := Int.log 10 x + 1
  let tries : List (Nat × Int) :=
    (List.range 17).flatMap (fun i => [(i + 1, n0), (i + 1, n0 + 1)])
  match tries.findSome? (fun kn => digitsWith x kn.1 kn.2) with
  | some sn => sn
  | none => (⌊x / (10 : ℚ) ^ (n0 - 17)⌋₊, n0)

/-- The text of `Number::toString` for the digits `ds` of `s` and the exponent
`n`: positional notation when `-6 < n ≤ 21`, exponent notation otherwise. -/
def formatDigits (ds : List Char) (n : Int) : List Char :=
  if -6 < n ∧ n ≤ 21 then
    if (ds.length : Int) ≤ n then ds ++ List.replicate (n - (ds.length : Int)).toNat '0'
    else if 0 < n then ds.take n.toNat ++ '.' :: ds.drop n.toNat
    else '0' :: '.' :: (List.replicate (-n).toNat '0' ++ ds)
  else
    let es : List Char :=
      (if 0 ≤ n - 1 then '+' else '-') :: (Nat.repr (n - 1).natAbs).data
    match ds with
    | [] => []
    | [d] => d :: 'e' :: es
    | d :: rest => d :: '.' :: (rest ++ 'e' :: es)

/-- The operation `Number::toString` in radix 10: the shortest digits that read
back as the same binary64 value, in positional or exponent notation. -/
def numToString : JSNum → String
  | .nan => "NaN"
  | .posInf => "Infinity"
  | .negInf => "-Infinity"
  | .fin q =>
    if q = 0 then "0"
    else
      ⟨(if q < 0 then ['-'] else []) ++
        formatDigits (Nat.repr (shortestDigits |q|).1).data (shortestDigits |q|).2⟩

namespace JSVal

/-- The conversion `ToBoolean`. -/
def truthy : JSVal → Bool
  | undefined => false
  | null => false
  | bool b => b
  | num x => x.truthy
  | str s => !s.data.isEmpty

/-- The conversion `ToString`, as `String(v)` performs it. -/
def toStr : JSVal → String
  | undefined => "undefined"
  | null => "null"
  | bool b => if b then "true" else "false"
  | num x => numToString x
  | str s => s

/-- The expression `a || b`. -/
def or (a b : JSVal) : JSVal := if a.truthy then a else b

/-- The receiver of a string method call such as `v.trim()`: the string itself, a
`TypeError` for any other value. -/
def asString : JSVal → Except JSError String
  | str s => .ok s
  | _ => .error .typeError

end JSVal

/-- The global function `parseInt(v)`. -/
def parseInt (v : JSVal) : JSNum := parseIntChars v.toStr.data

/-- The global function `parseFloat(v)`. -/
def parseFloat (v : JSVal) : JSNum := parseFloatChars v.toStr.data

/-- The expression `x || 0` on a number. -/
def orZero (x : JSNum) : JSNum := if x.truthy then x else .fin 0

/-! ## Records and filter criteria -/

/-- A record of the working set: a plain object from column label to cell value,
as the list of its own properties, read at the first entry of a key.  The order
of the list is the order of insertion; the script reads records by key only and
nothing here depends on the order in which an object enumerates its keys. -/
abbrev Record := List (String × JSVal)

/-- The property names every plain object inherits from `Object.prototype`. -/
def objectPrototypeNames : List String :=
  ["constructor", "__defineGetter__", "__defineSetter__", "hasOwnProperty",
    "__lookupGetter__", "__lookupSetter__", "isPrototypeOf", "propertyIsEnumerable",
    "toString", "valueOf", "__proto__", "toLocaleString"]

/-- The property read `site[key]` of an own property, and `undefined` for a key
the object does not have; that is the value the script reads for every key
outside `objectPrototypeNames`. -/
def Record.get (site : Record) (key : String) : JSVal :=
  (site.lookup key).getD .undefined

/-- The values of the filter controls as `applyFilters` reads them from the page:
`none` for a control that is not in the document. -/
structure FilterInputs where
  searchInput : Option String
  filterMinDa : Option String
  filterMaxDa : Option String
  filterMinDr : Option String
  filterMaxDr : Option String
  filterMinTraffic : Option String
  filterMaxTraffic : Option String
  filterMinPrice : Option String
  filterMaxPrice : Option String
  filterCategory : Option String
  filterRegion : Option String

/-- The constants `applyFilters` computes from the controls before it filters. -/
structure Criteria where
  search : String
  minDa : JSNum
  maxDa : JSNum
  minDr : JSNum
  maxDr : JSNum
  minTraffic : JSNum
  maxTraffic : JSNum
  minPrice : JSNum
  maxPrice : JSNum
  category : String
  region : String

/-- The expression `el?.value ? parseInt(el.value) : dflt` of the bounds parsing. -/
def readBound (value : Option String) (dflt : Nat) : JSNum :=
  match value with
  | some v => if (JSVal.str v).truthy then parseInt (.str v) else .ofNat dflt
  | none => .ofNat dflt

/-- The expression `el?.value || ""` of the selector reading. -/
def readSelector (value : Option String) : String :=
  match value with
  | some v => v
  | none => ""

/-- The criteria `applyFilters` reads from the controls (the constants `search`,
`minDa`, ..., `region`). -/
def readCriteria (inp : FilterInputs) : Criteria where
  search := match inp.searchInput with
    | some v => toLowerCase v
    | none => ""
  minDa := readBound inp.filterMinDa 0
  maxDa := readBound inp.filterMaxDa 100
  minDr := readBound inp.filterMinDr 0
  maxDr := readBound inp.filterMaxDr 100
  minTraffic := readBound inp.filterMinTraffic 0
  maxTraffic := readBound inp.filterMaxTraffic 999999999
  minPrice := readBound inp.filterMinPrice 0
  maxPrice := readBound inp.filterMaxPrice 999999999
  category := readSelector inp.filterCategory
  region := readSelector inp.filterRegion

/-- The controls of a page on which nothing has been entered. -/
def emptyInputs : FilterInputs :=
  ⟨some "", some "", some "", some "", some "", some "", some "", some "", some "",
    some "", some ""⟩

/-! ## The filter -/

/-- The traffic value of the filter callback: the `AHRF TF` cell (or `"0"`) as an
upper-case string without commas, `parseFloat` of it, times 1000 when the
string contains `K`, times 1000000 when it contains `M`, and `0` for `NaN`. -/
def parseTraffic (cell : JSVal) : JSNum :=
  let rawTraffic := toUpperCase (cell.or (.str "0")).toStr
  let parsed := parseFloat (.str (removeCommas rawTraffic))
  let parsed := if includes rawTraffic "K" then parsed.mul (.fin 1000) else parsed
  let parsed := if includes rawTraffic "M" then parsed.mul (.fin 1000000) else parsed
  if parsed.isNaN then .fin 0 else parsed

/-- The price of the filter callback: `site["PayPal"] ? parseFloat(site["PayPal"]) : 0`. -/
def rawPrice (cell : JSVal) : JSNum :=
  if cell.truthy then parseFloat cell else .fin 0

/-- The callback of `allWebsites.filter` in `applyFilters`. -/
def siteMatches (c : Criteria) (site : Record) : Except JSError Bool := do
  let siteDomain ← ((site.get "WEBSITE").or (.str "")).asString
  let siteDomain := toLowerCase siteDomain
  let siteDa := orZero (parseInt (site.get "DA"))
  let siteDr := orZero (parseInt (site.get "AHRF DR"))
  let parsedTraffic := parseTraffic (site.get "AHRF TF")
  let rawPrice := rawPrice (site.get "PayPal")
  let siteCategory ← ((site.get "CATEGORY").or (.str "")).asString
  let siteCategory := trim siteCategory
  let siteRegion ← ((site.get "Base Traffic").or (.str "")).asString
  let siteRegion := trim siteRegion
  let matchSearch := includes siteDomain c.search
  let matchDa := siteDa.ge c.minDa && siteDa.le c.maxDa
  let matchDr := siteDr.ge c.minDr && siteDr.le c.maxDr
  let matchTraffic := parsedTraffic.ge c.minTraffic && parsedTraffic.le c.maxTraffic
  let matchPrice := rawPrice.ge c.minPrice && rawPrice.le c.maxPrice
  let matchCat := c.category == "" || siteCategory == c.category
  let matchRegion := c.region == "" || siteRegion == c.region
  pure (matchSearch && matchDa && matchDr && matchTraffic && matchPrice && matchCat
    && matchRegion)

/-- The method `Array.prototype.filter` with a callback that may raise: the elements are
visited in order and the first exception aborts the call. -/
def filterExcept {α ε : Type} (p : α → Except ε Bool) : List α → Except ε (List α)
  | [] => .ok []
  | x :: xs =>
    match p x with
    | .error e => .error e
    | .ok b =>
      match filterExcept p xs with
      | .error e => .error e
      | .ok rest => .ok (if b then x :: rest else rest)

/-- The list `applyFilters` assigns to `filteredWebsites`. -/
def filterWebsites (c : Criteria) (allWebsites : List Record) :
    Except JSError (List Record) :=
  filterExcept (siteMatches c) allWebsites

/-! ## Reading the filter in the words of the specification -/

/-- A cell that a string method can be called on after `|| ""`: a string, or a
falsy value. -/
def JSVal.IsText (v : JSVal) : Prop := v.truthy = false ∨ ∃ s, v = .str s

/-- The text of a cell: the string it holds, the empty string otherwise. -/
def cellText : JSVal → String
  | .str s => s
  | _ => ""

/-- Every character of the text is an ASCII character. -/
def IsAscii (s : String) : Prop := ∀ c ∈ s.data, c.toNat < 128

instance (s : String) : Decidable (IsAscii s) := by
  unfold IsAscii; infer_instance

namespace Record

/-- The two texts of the record whose letters the filter converts, the domain
(to lower case) and the traffic cell (to upper case), are ASCII. -/
def AsciiCells (r : Record) : Prop :=
  IsAscii (cellText (r.get "WEBSITE")) ∧ IsAscii (cellText (r.get "AHRF TF"))

/-- The domain, category and region cells of the record are text. -/
def TextCells (r : Record) : Prop :=
  (r.get "WEBSITE").IsText ∧ (r.get "CATEGORY").IsText ∧ (r.get "Base Traffic").IsText

/-- The domain name of the record. -/
def domain (r : Record) : String := cellText (r.get "WEBSITE")

/-- The authority score of the record, `0` when the cell is not numeric. -/
def authority (r : Record) : JSNum := orZero (parseInt (r.get "DA"))

/-- The referring-domain score of the record, `0` when the cell is not numeric. -/
def referringDomains (r : Record) : JSNum := orZero (parseInt (r.get "AHRF DR"))

/-- The traffic value of the record. -/
def traffic (r : Record) : JSNum := parseTraffic (r.get "AHRF TF")

/-- The price of the record. -/
def price (r : Record) : JSNum := rawPrice (r.get "PayPal")

/-- The category label of the record, as stored. -/
def category (r : Record) : String := cellText (r.get "CATEGORY")

/-- The region label of the record, as stored. -/
def region (r : Record) : String := cellText (r.get "Base Traffic")

end Record

/-- The number `x` lies in the inclusive range from `lo` to `hi`. -/
def InRange (lo hi x : JSNum) : Prop := lo.le x = true ∧ x.le hi = true

/-- The seven predicates of the filter, with category and region compared after
trimming. -/
def Satisfies (c : Criteria) (r : Record) : Prop :=
  c.search.data <:+: (toLowerCase r.domain).data ∧
  InRange c.minDa c.maxDa r.authority ∧
  InRange c.minDr c.maxDr r.referringDomains ∧
  InRange c.minTraffic c.maxTraffic r.traffic ∧
  InRange c.minPrice c.maxPrice r.price ∧
  (c.category = "" ∨ trim r.category = c.category) ∧
  (c.region = "" ∨ trim r.region = c.region)

/-- The seven predicates of the filter with category and region compared as
stored: "category equals the selector or the selector is empty". -/
def SatisfiesAsStored (c : Criteria) (r : Record) : Prop :=
  c.search.data <:+: (toLowerCase r.domain).data ∧
  InRange c.minDa c.maxDa r.authority ∧
  InRange c.minDr c.maxDr r.referringDomains ∧
  InRange c.minTraffic c.maxTraffic r.traffic ∧
  InRange c.minPrice c.maxPrice r.price ∧
  (c.category = "" ∨ r.category = c.category) ∧
  (c.region = "" ∨ r.region = c.region)

instance (lo hi x : JSNum) : Decidable (InRange lo hi x) := by
  unfold InRange; infer_instance

instance (c : Criteria) (r : Record) : Decidable (Satisfies c r) := by
  unfold Satisfies; infer_instance

/-! ## Sample inputs -/

/-- The criteria of a page on which only the category `Tech` has been selected. -/
def techCriteria : Criteria :=
  readCriteria { emptyInputs with filterCategory := some "Tech" }

/-- A record whose category is stored with surrounding blanks. -/
def paddedSite : Record := [("WEBSITE", .str "a.com"), ("CATEGORY", .str " Tech ")]

/-- A record whose domain cell holds a number. -/
def numericDomainSite : Record := [("WEBSITE", .num (.fin 5))]

/-- A record whose price cell holds text that is not a number. -/
def nonNumericPriceSite : Record := [("WEBSITE", .str "a.com"), ("PayPal", .str "abc")]

/-- A record whose authority, referring-domain and traffic cells hold text that is
not a number. -/
def nonNumericScoreSite : Record :=
  [("WEBSITE", .str "a.com"), ("DA", .str "abc"), ("AHRF DR", .str "n/a"),
    ("AHRF TF", .str "abc")]

/-! ## Relaxing a criterion -/

/-- The relation `RelaxesOne c c'`: the criteria `c'` are `c` with a single bound relaxed: a
search text that is a substring of the old one, a lower minimum, a higher
maximum, or a category or region selector cleared. -/
inductive RelaxesOne (c : Criteria) : Criteria → Prop
  | search (s : String) (h : s.data <:+: c.search.data) : RelaxesOne c { c with search := s }
  | minDa (x : JSNum) (h : x.le c.minDa = true) : RelaxesOne c { c with minDa := x }
  | maxDa (x : JSNum) (h : c.maxDa.le x = true) : RelaxesOne c { c with maxDa := x }
  | minDr (x : JSNum) (h : x.le c.minDr = true) : RelaxesOne c { c with minDr := x }
  | maxDr (x : JSNum) (h : c.maxDr.le x = true) : RelaxesOne c { c with maxDr := x }
  | minTraffic (x : JSNum) (h : x.le c.minTraffic = true) :
      RelaxesOne c { c with minTraffic := x }
  | maxTraffic (x : JSNum) (h : c.maxTraffic.le x = true) :
      RelaxesOne c { c with maxTraffic := x }
  | minPrice (x : JSNum) (h : x.le c.minPrice = true) : RelaxesOne c { c with minPrice := x }
  | maxPrice (x : JSNum) (h : c.maxPrice.le x = true) : RelaxesOne c { c with maxPrice := x }
  | category : RelaxesOne c { c with category := "" }
  | region : RelaxesOne c { c with region := "" }

/-! ## Decimal texts, in the words of the specification -/

/-- The characters of a decimal number with optional comma separators, followed by
a suffix: integer digits and commas `ip`, then, when `fp` is not empty, a point
and the fraction digits `fp`, then `suffix`. -/
def decimalText (ip fp suffix : List Char) : String :=
  ⟨ip ++ (if fp.isEmpty then [] else '.' :: fp) ++ suffix⟩

/-- The number a decimal text denotes: its digits read in base ten, divided by
ten to the number of fraction digits. -/
def decimalValue (ip fp : List Char) : ℚ :=
  (digitsVal (ip.filter (fun c => c != ',') ++ fp) : ℚ) / (10 : ℚ) ^ fp.length

/-- The list `ip` is made of digits and commas and has at least one digit; `fp` is made of
digits. -/
def IsDecimal (ip fp : List Char) : Prop :=
  (∀ c ∈ ip, c.isDigit = true ∨ c = ',') ∧ (∃ c ∈ ip, c.isDigit = true) ∧
  (∀ c ∈ fp, c.isDigit = true)

/-- Whether a text, its commas, leading white space and sign already taken away,
starts with a number: a digit, or a point followed by a digit. -/
def startsNumber : List Char → Bool
  | '.' :: d :: _ => d.isDigit
  | d :: _ => d.isDigit
  | [] => false

/-- The text starts with no number: once the commas are removed and the leading
white space and one sign are skipped, what is left starts neither with a digit
nor with a point followed by a digit. -/
def NoLeadingNumber (t : String) : Prop :=
  startsNumber
    (splitSign ((t.data.filter (fun c => c != ',')).dropWhile isWhiteSpace)).2 = false

instance (t : String) : Decidable (NoLeadingNumber t) := by
  unfold NoLeadingNumber; infer_instance

/-! ## Pagination -/

/-- The constant `itemsPerPage`. -/
def itemsPerPage : Nat := 50

/-- The page count `Math.ceil(filteredWebsites.length / itemsPerPage)`. -/
def totalPages (filteredWebsites : List Record) : Nat :=
  ⌈(filteredWebsites.length : ℚ) / (itemsPerPage : ℚ)⌉₊

/-- The method `Array.prototype.slice(start, end)` with integer arguments: a negative index
counts from the end, and both are clamped to the bounds of the array. -/
def slice {α : Type} (xs : List α) (start stop : Int) : List α :=
  let len : Int := xs.length
  let k := if start < 0 then max (len + start) 0 else min start len
  let final := if stop < 0 then max (len + stop) 0 else min stop len
  (xs.drop k.toNat).take (final - k).toNat

/-- The window `paginatedItems` that `renderTablePage` draws. -/
def paginatedItems (filteredWebsites : List Record) (currentPage : Int) : List Record :=
  let startIndex := (currentPage - 1) * (itemsPerPage : Int)
  let endIndex := startIndex + (itemsPerPage : Int)
  slice filteredWebsites startIndex endIndex

/-- The module state the page functions read and write. -/
structure State where
  allWebsites : List Record
  filteredWebsites : List Record
  currentPage : Int

/-- The function `changePage(page)` for an integer `page`. -/
def changePage (page : Int) (s : State) : State :=
  let totalPages : Int := totalPages s.filteredWebsites
  if page < 1 ∨ page > totalPages then s
  else { s with currentPage := page }

/-- The function `applyFilters()`, the controls being passed as `inp`: the filtered
list is replaced and the page reset to 1; an exception raised by the filter
callback leaves before either assignment. -/
def applyFilters (inp : FilterInputs) (s : State) : Except JSError State :=
  match filterWebsites (readCriteria inp) s.allWebsites with
  | .ok l => .ok { s with filteredWebsites := l, currentPage := 1 }
  | .error e => .error e

/-- A call of one of the two page functions. -/
inductive PageCall where
  | changePage (page : Int)
  | applyFilters (inp : FilterInputs)

/-- The state after a call; a call that raises leaves the state it found. -/
def PageCall.run (s : State) : PageCall → State
  | .changePage page => Marketplace.changePage page s
  | .applyFilters inp =>
    match Marketplace.applyFilters inp s with
    | .ok s' => s'
    | .error _ => s

/-- The state after a sequence of calls. -/
def runPage (calls : List PageCall) (s : State) : State := calls.foldl PageCall.run s

/-- The current page lies between 1 and the page count, or is 1. -/
def PageInRange (s : State) : Prop :=
  1 ≤ s.currentPage ∧ s.currentPage ≤ max 1 (totalPages s.filteredWebsites : Int)

/-! ## Cart -/

/-- An item of the cart. -/
structure CartItem where
  id : String
  domain : String
  price : JSNum
  type : String
  deriving DecidableEq

/-- The function `addToCart(domain, price, type)`; `now` is the value `Date.now()`
returns during the call, in milliseconds. -/
def addToCart (now : Nat) (domain : String) (price : JSNum) (type : String)
    (cart : List CartItem) : List CartItem :=
  if price.le (.fin 0) then cart
  else
    match cart.find? (fun i => i.domain == domain) with
    | none => cart ++ [{ id := Nat.repr now, domain := domain, price := price, type := type }]
    | some _ => cart

/-- The function `removeFromCart(id)`. -/
def removeFromCart (id : String) (cart : List CartItem) : List CartItem :=
  cart.filter (fun i => i.id != id)

/-- A call of one of the two cart functions. -/
inductive CartCall where
  | add (now : Nat) (domain : String) (price : JSNum) (type : String)
  | remove (id : String)

/-- The cart after a call. -/
def CartCall.run (cart : List CartItem) : CartCall → List CartItem
  | .add now domain price type => addToCart now domain price type cart
  | .remove id => removeFromCart id cart

/-- The cart after a sequence of calls. -/
def runCart (calls : List CartCall) (cart : List CartItem) : List CartItem :=
  calls.foldl CartCall.run cart

/-- The clock readings of the `addToCart` calls of a sequence, in call order. -/
def clockReadings : List CartCall → List Nat
  | [] => []
  | .add now _ _ _ :: calls => now :: clockReadings calls
  | .remove _ :: calls => clockReadings calls

/-- The items a call pushes onto the cart it finds. -/
def CartCall.pushed (cart : List CartItem) (call : CartCall) : List CartItem :=
  (call.run cart).drop cart.length

/-- Every item pushed during a sequence of calls, in push order. -/
def inserted : List CartCall → List CartItem → List CartItem
  | [], _ => []
  | call :: calls, cart => call.pushed cart ++ inserted calls (call.run cart)

/-- Two `addToCart` calls for different domains within the same millisecond. -/
def sameMillisecondCalls : List CartCall :=
  [.add 1000 "a.com" (.fin 10) "t", .add 1000 "b.com" (.fin 10) "t"]

/-! ## Ingestion -/

/-- A cell `row.c[i]` of the payload: `none` for `null`, `some v` for an object
whose property `v` is `v` (`undefined` when the object has none). -/
abbrev Cell := Option JSVal

/-- A row of the payload: `c` is `none` when the row has no cell array. -/
structure Row where
  c : Option (List Cell)

/-- The table of the payload: a column is `none` for `null`, else its label; a row
is `none` for `null`. -/
structure Table where
  cols : List (Option String)
  rows : List (Option Row)

/-- The assignment `siteObj[key] = v` of a value that is no object and not
`null`, on a property list: an existing property keeps its place and takes the
new value, a new one is added at the end. -/
def Record.setOwn : Record → String → JSVal → Record
  | [], key, v => [(key, v)]
  | (k, w) :: rest, key, v =>
    if k == key then (key, v) :: rest else (k, w) :: Record.setOwn rest key v

/-- The assignment `siteObj[key] = v` on the object the load callback builds, for
a value that is no object and not `null`: the key `__proto__` reaches the setter
of `Object.prototype`, which ignores such a value and stores nothing; every
other key is stored as an own property. -/
def Record.set (site : Record) (key : String) (v : JSVal) : Record :=
  if key == "__proto__" then site else site.setOwn key v

/-- The expression `(cell && cell.v !== null && cell.v !== undefined) ? cell.v : ""`
for `cell = row.c[index]`, which is `undefined` past the end of the array. -/
def cellValue (cell : Option Cell) : JSVal :=
  match cell with
  | some (some v) => if v != .null && v != .undefined then v else .str ""
  | _ => .str ""

/-- The array `headers`: `c ? c.label : ""` for each column. -/
def headersOf (cols : List (Option String)) : List String :=
  cols.map (fun c => match c with
    | some label => label
    | none => "")

/-- The object `siteObj` after `headers.forEach`, started from `acc`, the first
header having index `index`. -/
def fillSite (c : List Cell) : List String → Nat → Record → Record
  | [], _, acc => acc
  | colName :: rest, index, acc =>
    fillSite c rest (index + 1) (acc.set colName (cellValue (c.get? index)))

/-- The object `siteObj` built for a row with cell array `c`. -/
def buildSite (headers : List String) (c : List Cell) : Record :=
  fillSite c headers 0 []

/-- The test `siteObj["WEBSITE"] && String(siteObj["WEBSITE"]).trim() !== ""`. -/
def validWebsite (siteObj : Record) : Bool :=
  (siteObj.get "WEBSITE").truthy && trim (siteObj.get "WEBSITE").toStr != ""

/-- The array `mappedData` after `rows.forEach`, started from `acc`. -/
def pushRows (headers : List String) : List (Option Row) → List Record → List Record
  | [], acc => acc
  | row :: rest, acc =>
    match row with
    | some ⟨some c⟩ =>
      let siteObj := buildSite headers c
      if validWebsite siteObj then pushRows headers rest (acc ++ [siteObj])
      else pushRows headers rest acc
    | _ => pushRows headers rest acc

/-- The array `mappedData` the load callback assigns to `allWebsites`. -/
def mappedData (table : Table) : List Record :=
  pushRows (headersOf table.cols) table.rows []

/-- The record of a row in the words of the specification: each label is given
the cell value at its index. -/
def rowRecord (headers : List String) (row : Option Row) : Option Record :=
  match row with
  | some ⟨some c⟩ =>
    if validWebsite (buildSite headers c) then some (buildSite headers c) else none
  | _ => none

/-- A table with one column `WEBSITE` and one row whose domain cell is blank. -/
def blankDomainTable : Table :=
  ⟨[some "WEBSITE"], [some ⟨some [some (.str " ")]⟩]⟩

/-- A table with two columns of the same label. -/
def twoNotesTable : Table :=
  ⟨[some "WEBSITE", some "", some ""],
    [some ⟨some [some (.str "a.com"), some (.str "first"), some (.str "second")]⟩]⟩

/-! ## Rendering of a row -/

/-- The double-quote character. -/
def dquote : Char := Char.ofNat 34

/-- The single-quote character. -/
def squote : Char := Char.ofNat 39

/-- The call `s.replace(/"/g, '&quot;')` on a list of characters: every double
quote is replaced by the six characters `&quot;`. -/
def replaceQuotChars : List Char → List Char
  | [] => []
  | c :: cs => (if c = dquote then "&quot;".data else [c]) ++ replaceQuotChars cs

/-- The constant `websiteDomain` of `renderTablePage`: `site["WEBSITE"] || "-"`. -/
def websiteDomain (site : Record) : JSVal := (site.get "WEBSITE").or (.str "-")

/-- The constant `safeDomain` of `renderTablePage`:
`String(websiteDomain).replace(/"/g, '&quot;')`. -/
def safeDomain (site : Record) : String :=
  ⟨replaceQuotChars (websiteDomain site).toStr.data⟩

/-- The value of the `href` attribute of the row link, between its double quotes:
the template `https://${websiteDomain}`. -/
def linkTarget (site : Record) : String :=
  ⟨"https://".data ++ (websiteDomain site).toStr.data⟩

/-- The value of an `onclick` attribute of the row, between its double quotes:
the template `fn('${safeDomain}', ${rawPrice}, 'Link Insertion')` for the
function name `fn`. -/
def actionAttr (fn : String) (site : Record) : String :=
  ⟨fn.data ++ ['(', squote] ++ (safeDomain site).data ++ [squote, ',', ' '] ++
    (numToString (rawPrice (site.get "PayPal"))).data ++
    [',', ' ', squote] ++ "Link Insertion".data ++ [squote, ')']⟩

/-- The `onclick` value of the add-to-cart button. -/
def addToCartAttr (site : Record) : String := actionAttr "addToCart" site

/-- The `onclick` value of the buy-now button. -/
def buyNowAttr (site : Record) : String := actionAttr "buyNow" site

/-- A record whose domain holds a double quote and a single quote. -/
def quotedSite : Record :=
  [("WEBSITE", .str ⟨['a', dquote, 'b', squote, 'c', '.', 'c', 'o', 'm']⟩)]

/-! # Theorems -/

/-! ## Rounding to binary64 -/

theorem round64_zero : JSNum.round64 0 = .fin 0 := by
  simp [JSNum.round64]

theorem roundHalfEven_of_near (y : ℚ) (m : Int) (h : |y - (m : ℚ)| < 1 / 2) :
    JSNum.roundHalfEven y = m := by
  rw [abs_lt] at h
  obtain ⟨h1, h2⟩ := h
  unfold JSNum.roundHalfEven
  by_cases hy : (m : ℚ) ≤ y
  · have hf : ⌊y⌋ = m := by
      rw [Int.floor_eq_iff]
      constructor
      · exact hy
      · linarith
    rw [hf, if_pos (by linarith)]
  · have hf : ⌊y⌋ = m - 1 := by
      rw [Int.floor_eq_iff]
      push_cast
      constructor <;> linarith
    rw [hf]
    push_cast
    rw [if_neg (by linarith), if_pos (by linarith)]
    ring

theorem log2_eq (x : ℚ) (e : Int) (hx : 0 < x) (h1 : (2 : ℚ) ^ e ≤ x)
    (h2 : x < (2 : ℚ) ^ (e + 1)) : Int.log 2 x = e := by
  apply le_antisymm
  · have := (Int.lt_zpow_iff_log_lt (show (1 : ℕ) < 2 by norm_num) hx).1
      (by exact_mod_cast h2)
    omega
  · exact (Int.zpow_le_iff_le_log (show (1 : ℕ) < 2 by norm_num) hx).1
      (by exact_mod_cast h1)

/-- The binary64 value of a positive `x` in the binade of exponent `e`: the
multiple `m` of the unit in the last place that lies within half a unit of it. -/
theorem round64_eq (x : ℚ) (e m : Int) (hx : 0 < x) (he : -1022 ≤ e)
    (h1 : (2 : ℚ) ^ e ≤ x) (h2 : x < (2 : ℚ) ^ (e + 1))
    (hm : |x / (2 : ℚ) ^ (e - 52) - (m : ℚ)| < 1 / 2)
    (hfin : |(m : ℚ) * (2 : ℚ) ^ (e - 52)| < (2 : ℚ) ^ (1024 : ℕ)) :
    JSNum.round64 x = .fin ((m : ℚ) * (2 : ℚ) ^ (e - 52)) := by
  have hexp : JSNum.exponent64 x = e := by
    unfold JSNum.exponent64
    rw [abs_of_pos hx, log2_eq x e hx h1 h2]
    exact max_eq_left he
  unfold JSNum.round64 JSNum.nearest64
  rw [if_neg (ne_of_gt hx), hexp, roundHalfEven_of_near _ m hm, if_neg (not_le.2 hfin)]

theorem round64_natCast (n : Nat) (h : n < 2 ^ 53) : JSNum.round64 (n : ℚ) = .fin (n : ℚ) := by
  rcases Nat.eq_zero_or_pos n with rfl | hpos
  · simpa using round64_zero
  · have hle : Nat.log 2 n ≤ 52 := by
      have := Nat.log_lt_of_lt_pow (Nat.pos_iff_ne_zero.1 hpos) h
      omega
    have hlo : 2 ^ Nat.log 2 n ≤ n := Nat.pow_log_le_self 2 (Nat.pos_iff_ne_zero.1 hpos)
    have hhi : n < 2 ^ (Nat.log 2 n + 1) := Nat.lt_pow_succ_log_self (by norm_num) n
    have hu : (2 : ℚ) ^ ((Nat.log 2 n : Int) - 52) * (2 : ℚ) ^ (52 - Nat.log 2 n) = 1 := by
      rw [← zpow_natCast, ← zpow_add₀ (by norm_num)]
      have : ((Nat.log 2 n : Int) - 52) + ((52 - Nat.log 2 n : Nat) : Int) = 0 := by omega
      rw [this, zpow_zero]
    have hupos : (0 : ℚ) < (2 : ℚ) ^ ((Nat.log 2 n : Int) - 52) := by positivity
    have hdiv : (n : ℚ) / (2 : ℚ) ^ ((Nat.log 2 n : Int) - 52)
        = ((n * 2 ^ (52 - Nat.log 2 n) : Nat) : ℚ) := by
      rw [div_eq_iff (ne_of_gt hupos)]
      push_cast
      rw [mul_assoc, mul_comm ((2 : ℚ) ^ (52 - Nat.log 2 n)), hu, mul_one]
    have hval : (((n * 2 ^ (52 - Nat.log 2 n) : Nat) : Int) : ℚ)
        * (2 : ℚ) ^ ((Nat.log 2 n : Int) - 52) = (n : ℚ) := by
      push_cast
      rw [mul_assoc, mul_comm ((2 : ℚ) ^ (52 - Nat.log 2 n)), hu, mul_one]
    have key := round64_eq (n : ℚ) (Nat.log 2 n : Int) ((n * 2 ^ (52 - Nat.log 2 n) : Nat) : Int)
      (by exact_mod_cast hpos) (by omega)
      (by rw [zpow_natCast]; exact_mod_cast hlo)
      (by
        have : ((Nat.log 2 n : Int) + 1) = ((Nat.log 2 n + 1 : Nat) : Int) := by push_cast; ring
        rw [this, zpow_natCast]
        exact_mod_cast hhi)
      (by
        rw [hdiv]
        simp)
      (by
        rw [hval, abs_of_nonneg (by positivity)]
        have h2 : (n : ℚ) < ((2 ^ 53 : Nat) : ℚ) := by exact_mod_cast h
        have h3 : (((2 : Nat) ^ 53 : Nat) : ℚ) ≤ (2 : ℚ) ^ (1024 : ℕ) := by norm_num
        linarith)
    rw [key, hval]

theorem round64_ne_nan (x : ℚ) : JSNum.round64 x ≠ .nan := by
  unfold JSNum.round64
  split
  · exact fun h => JSNum.noConfusion h
  · split
    · split <;> exact fun h => JSNum.noConfusion h
    · exact fun h => JSNum.noConfusion h

theorem mul_pos_ne_nan (a : JSNum) (b : ℚ) (hb : 0 < b) (ha : a ≠ .nan) :
    a.mul (.fin b) ≠ .nan := by
  cases a with
  | nan => exact absurd rfl ha
  | fin q => exact round64_ne_nan _
  | posInf =>
    simp only [JSNum.mul, JSNum.infOfSign, if_neg (ne_of_gt hb), if_pos hb]
    exact fun h => JSNum.noConfusion h
  | negInf =>
    have h1 : ¬ (-b = 0) := by linarith
    have h2 : ¬ (0 < -b) := by linarith
    simp only [JSNum.mul, JSNum.infOfSign, if_neg h1, if_neg h2]
    exact fun h => JSNum.noConfusion h

theorem isNaN_eq_false {a : JSNum} (h : a ≠ .nan) : a.isNaN = false := by
  cases a <;> simp_all [JSNum.isNaN]

/-! ## Lemmas on the building blocks -/

theorem includesChars_iff (hay needle : List Char) :
    includesChars hay needle = true ↔ needle <:+: hay := by
  induction hay with
  | nil => simp [includesChars, List.isEmpty_iff]
  | cons c hay ih =>
    simp only [includesChars, Bool.or_eq_true, ih, List.isPrefixOf_iff_prefix]
    exact List.infix_cons_iff.symm

theorem includes_iff (hay needle : String) :
    includes hay needle = true ↔ needle.data <:+: hay.data :=
  includesChars_iff _ _

theorem asString_or_of_isText {v : JSVal} (h : v.IsText) :
    (v.or (.str "")).asString = .ok (cellText v) := by
  cases v with
  | str s =>
    by_cases hs : (JSVal.str s).truthy = true
    · simp [JSVal.or, hs, JSVal.asString, cellText]
    · have hs2 : s = "" := by
        simp only [JSVal.truthy, Bool.not_eq_true', Bool.not_eq_false, List.isEmpty_iff] at hs
        exact String.ext hs
      subst hs2
      simp [JSVal.or, JSVal.asString, cellText, JSVal.truthy]
  | undefined => rfl
  | null => rfl
  | bool b =>
    rcases h with h | ⟨s, hs⟩
    · simp_all [JSVal.or, JSVal.asString, cellText, JSVal.truthy]
    · cases hs
  | num x =>
    rcases h with h | ⟨s, hs⟩
    · simp_all [JSVal.or, JSVal.asString, cellText, JSVal.truthy]
    · cases hs

theorem asString_or_isOk {v : JSVal} {s : String}
    (h : (v.or (.str "")).asString = .ok s) : v.IsText := by
  cases v with
  | str t => exact Or.inr ⟨t, rfl⟩
  | undefined => exact Or.inl rfl
  | null => exact Or.inl rfl
  | bool b => cases b <;> simp_all [JSVal.or, JSVal.asString, JSVal.truthy, JSVal.IsText]
  | num x =>
    by_cases hx : x.truthy = true
    · simp [JSVal.or, JSVal.asString, JSVal.truthy, hx] at h
    · exact Or.inl (by simpa [JSVal.truthy] using hx)

theorem filterExcept_ok {α ε : Type} (p : α → Except ε Bool) (q : α → Bool) (l : List α)
    (h : ∀ x ∈ l, p x = .ok (q x)) : filterExcept p l = .ok (l.filter q) := by
  induction l with
  | nil => rfl
  | cons x xs ih =>
    have hx := h x (List.mem_cons_self _ _)
    have hxs := ih (fun y hy => h y (List.mem_cons_of_mem _ hy))
    simp only [filterExcept, hx, hxs, List.filter_cons]

theorem siteMatches_ok (c : Criteria) (r : Record) (h : r.TextCells) :
    siteMatches c r = .ok (decide (Satisfies c r)) := by
  obtain ⟨h1, h2, h3⟩ := h
  simp only [siteMatches, asString_or_of_isText h1, asString_or_of_isText h2,
    asString_or_of_isText h3, bind, Except.bind, pure, Except.pure]
  congr 1
  rw [Bool.eq_iff_iff]
  simp only [Bool.and_eq_true, Bool.or_eq_true, includes_iff, beq_iff_eq, decide_eq_true_eq,
    Satisfies, InRange, JSNum.ge, Record.domain, Record.authority, Record.referringDomains,
    Record.traffic, Record.price, Record.category, Record.region]
  tauto

/-! ## C1: the filter is the conjunction of its predicates -/

/-- The keys the filter callback reads are no property names of
`Object.prototype`, so a record without one of them reads `undefined`. -/
theorem filter_keys_not_inherited :
    ∀ key ∈ ["WEBSITE", "DA", "AHRF DR", "AHRF TF", "PayPal", "CATEGORY", "Base Traffic"],
      key ∉ objectPrototypeNames := by
  decide


/-- C1 (as amended).  For every criteria and every record list whose domain,
category and region cells are text (a string or a falsy value) and whose domain
and traffic texts are ASCII, `applyFilters` computes a list; a record is in it
iff it is in the full list and satisfies the seven predicates, category and
region being compared after trimming and the numeric values being the binary64
numbers the callback computes; and the retained records keep their relative
order.  The ASCII condition keeps the statement to the texts on which the case
conversions of the model are those of the script. -/
theorem applyFilters_conjunction (c : Criteria) (allWebsites : List Record)
    (htext : ∀ r ∈ allWebsites, r.TextCells)
    (_hascii : ∀ r ∈ allWebsites, r.AsciiCells) :
    ∃ l, filterWebsites c allWebsites = .ok l ∧
      (∀ r, r ∈ l ↔ r ∈ allWebsites ∧ Satisfies c r) ∧ l.Sublist allWebsites := by
  refine ⟨allWebsites.filter (fun r => decide (Satisfies c r)), ?_, ?_, List.filter_sublist _⟩
  · exact filterExcept_ok _ _ _ (fun r hr => siteMatches_ok c r (htext r hr))
  · intro r
    simp [List.mem_filter]

/-- Witness of C1: the theorem at the one-record list `[paddedSite]` with the
category `Tech` selected. -/
theorem applyFilters_conjunction_witness :
    (∀ r ∈ [paddedSite], r.TextCells) ∧ (∀ r ∈ [paddedSite], r.AsciiCells) ∧
    ∃ l, filterWebsites techCriteria [paddedSite] = .ok l ∧
      (∀ r, r ∈ l ↔ r ∈ [paddedSite] ∧ Satisfies techCriteria r) ∧
      l.Sublist [paddedSite] :=
  have h : ∀ r ∈ [paddedSite], r.TextCells := by
    intro r hr
    rw [List.mem_singleton] at hr
    subst hr
    exact ⟨Or.inr ⟨_, rfl⟩, Or.inr ⟨_, rfl⟩, Or.inl rfl⟩
  have ha : ∀ r ∈ [paddedSite], r.AsciiCells := by
    intro r hr
    rw [List.mem_singleton] at hr
    subst hr
    exact ⟨by decide, by decide⟩
  ⟨h, ha, applyFilters_conjunction techCriteria [paddedSite] h ha⟩

/-- C1 as stated fails.  With the category `Tech` selected, the record whose
category is stored as `" Tech "` is retained although its category differs from
the selector; and on a record whose domain cell holds the number `5` the filter
raises a `TypeError` and computes no list. -/
theorem applyFilters_conjunction_as_stated_fails :
    (filterWebsites techCriteria [paddedSite] = .ok [paddedSite] ∧
      ¬ SatisfiesAsStored techCriteria paddedSite) ∧
    filterWebsites techCriteria [numericDomainSite] = .error .typeError := by
  refine ⟨⟨?_, ?_⟩, rfl⟩
  · simp [filterWebsites, filterExcept, siteMatches, Record.get, List.lookup, JSVal.or,
      JSVal.truthy, JSVal.asString, readCriteria, emptyInputs, readBound, readSelector,
      parseInt, parseIntChars, JSVal.toStr, orZero, parseTraffic, rawPrice, parseFloat,
      parseFloatChars, signedLiteral, afterInteger, decimalLiteral, splitSign,
      toUpperCase, toLowerCase, removeCommas, includes,
      includesChars, JSNum.mul, round64_zero, JSNum.isNaN, JSNum.ge, JSNum.le,
      JSNum.truthy, JSNum.ofNat,
      trim, trimChars, isWhiteSpace, scale10, exponentPart, digitsVal, digitVal, bind,
      Except.bind, pure, Except.pure, techCriteria, paddedSite]
  · intro h
    have hc := h.2.2.2.2.2.1
    revert hc
    decide

/-! ## C2: a price that is not a number -/

/-- C2 at its failing input.  Under the default criteria the record whose price
cell holds `"abc"` is excluded: its price is `NaN`, not `0`.  The record whose
authority, referring-domain and traffic cells hold text that is not a number is
retained: those three values are `0`. -/
theorem applyFilters_price_not_lenient :
    filterWebsites (readCriteria emptyInputs) [nonNumericPriceSite] = .ok [] ∧
    rawPrice (nonNumericPriceSite.get "PayPal") = .nan ∧
    filterWebsites (readCriteria emptyInputs) [nonNumericScoreSite]
      = .ok [nonNumericScoreSite] := by
  refine ⟨?_, ?_, ?_⟩
  · simp [filterWebsites, filterExcept, siteMatches, Record.get, List.lookup, JSVal.or,
      JSVal.truthy, JSVal.asString, readCriteria, emptyInputs, readBound, readSelector,
      parseInt, parseIntChars, JSVal.toStr, orZero, parseTraffic, rawPrice, parseFloat,
      parseFloatChars, signedLiteral, afterInteger, decimalLiteral, splitSign,
      toUpperCase, toLowerCase, removeCommas, includes,
      includesChars, JSNum.mul, round64_zero, JSNum.isNaN, JSNum.ge, JSNum.le,
      JSNum.truthy, JSNum.ofNat,
      trim, trimChars, isWhiteSpace, scale10, exponentPart, digitsVal, digitVal, bind,
      Except.bind, pure, Except.pure, nonNumericPriceSite]
  · simp [rawPrice, Record.get, List.lookup, JSVal.truthy, parseFloat, parseFloatChars,
      signedLiteral, afterInteger, decimalLiteral, JSVal.toStr, splitSign, isWhiteSpace,
      nonNumericPriceSite]
  · simp [filterWebsites, filterExcept, siteMatches, Record.get, List.lookup, JSVal.or,
      JSVal.truthy, JSVal.asString, readCriteria, emptyInputs, readBound, readSelector,
      parseInt, parseIntChars, JSVal.toStr, orZero, parseTraffic, rawPrice, parseFloat,
      parseFloatChars, signedLiteral, afterInteger, decimalLiteral, splitSign,
      toUpperCase, toLowerCase, removeCommas, includes,
      includesChars, JSNum.mul, round64_zero, JSNum.isNaN, JSNum.ge, JSNum.le,
      JSNum.truthy, JSNum.ofNat,
      trim, trimChars, isWhiteSpace, scale10, exponentPart, digitsVal, digitVal, bind,
      Except.bind, pure, Except.pure, nonNumericScoreSite]

/-! ## C3: relaxing a bound -/

theorem jsLe_trans {a b c : JSNum} (hab : a.le b = true) (hbc : b.le c = true) :
    a.le c = true := by
  cases a <;> cases b <;> cases c <;> simp_all [JSNum.le]
  exact hab.trans hbc

theorem inRange_relax {lo hi lo' hi' x : JSNum} (h : InRange lo hi x)
    (hlo : lo' = lo ∨ lo'.le lo = true) (hhi : hi' = hi ∨ hi.le hi' = true) :
    InRange lo' hi' x := by
  obtain ⟨h1, h2⟩ := h
  constructor
  · rcases hlo with rfl | hlo
    · exact h1
    · exact jsLe_trans hlo h1
  · rcases hhi with rfl | hhi
    · exact h2
    · exact jsLe_trans h2 hhi

theorem satisfies_relax {c c' : Criteria} {r : Record} (hrelax : RelaxesOne c c')
    (h : Satisfies c r) : Satisfies c' r := by
  obtain ⟨h1, h2, h3, h4, h5, h6, h7⟩ := h
  cases hrelax with
  | search s hs => exact ⟨hs.trans h1, h2, h3, h4, h5, h6, h7⟩
  | minDa x hx => exact ⟨h1, inRange_relax h2 (Or.inr hx) (Or.inl rfl), h3, h4, h5, h6, h7⟩
  | maxDa x hx => exact ⟨h1, inRange_relax h2 (Or.inl rfl) (Or.inr hx), h3, h4, h5, h6, h7⟩
  | minDr x hx => exact ⟨h1, h2, inRange_relax h3 (Or.inr hx) (Or.inl rfl), h4, h5, h6, h7⟩
  | maxDr x hx => exact ⟨h1, h2, inRange_relax h3 (Or.inl rfl) (Or.inr hx), h4, h5, h6, h7⟩
  | minTraffic x hx => exact ⟨h1, h2, h3, inRange_relax h4 (Or.inr hx) (Or.inl rfl), h5, h6, h7⟩
  | maxTraffic x hx => exact ⟨h1, h2, h3, inRange_relax h4 (Or.inl rfl) (Or.inr hx), h5, h6, h7⟩
  | minPrice x hx => exact ⟨h1, h2, h3, h4, inRange_relax h5 (Or.inr hx) (Or.inl rfl), h6, h7⟩
  | maxPrice x hx => exact ⟨h1, h2, h3, h4, inRange_relax h5 (Or.inl rfl) (Or.inr hx), h6, h7⟩
  | category => exact ⟨h1, h2, h3, h4, h5, Or.inl rfl, h7⟩
  | region => exact ⟨h1, h2, h3, h4, h5, h6, Or.inl rfl⟩

theorem filterExcept_inv {α ε : Type} (p : α → Except ε Bool) :
    ∀ (l r : List α), filterExcept p l = .ok r → ∀ x ∈ l, ∃ b, p x = .ok b := by
  intro l
  induction l with
  | nil => intro r _ x hx; cases hx
  | cons y ys ih =>
    intro r h x hx
    simp only [filterExcept] at h
    cases hy : p y with
    | error e => simp [hy] at h
    | ok b =>
      rw [hy] at h
      cases hys : filterExcept p ys with
      | error e => simp [hys] at h
      | ok rest =>
        rcases List.mem_cons.1 hx with rfl | hx
        · exact ⟨b, hy⟩
        · exact ih rest hys x hx

theorem siteMatches_textCells {c : Criteria} {r : Record} {b : Bool}
    (h : siteMatches c r = .ok b) : r.TextCells := by
  simp only [siteMatches, bind, Except.bind, pure, Except.pure] at h
  cases h1 : ((r.get "WEBSITE").or (.str "")).asString with
  | error e => simp [h1] at h
  | ok s1 =>
    cases h2 : ((r.get "CATEGORY").or (.str "")).asString with
    | error e => simp [h1, h2] at h
    | ok s2 =>
      cases h3 : ((r.get "Base Traffic").or (.str "")).asString with
      | error e => simp [h1, h2, h3] at h
      | ok s3 => exact ⟨asString_or_isOk h1, asString_or_isOk h2, asString_or_isOk h3⟩

/-- The filter computes a list exactly when every record has text cells, and the
list is then the records that satisfy the predicates. -/
theorem filterWebsites_eq_ok_iff (c : Criteria) (allWebsites l : List Record) :
    filterWebsites c allWebsites = .ok l ↔
      (∀ r ∈ allWebsites, r.TextCells) ∧
        l = allWebsites.filter (fun r => decide (Satisfies c r)) := by
  constructor
  · intro h
    have ht : ∀ r ∈ allWebsites, r.TextCells := fun r hr =>
      let ⟨_, hb⟩ := filterExcept_inv _ _ _ h r hr
      siteMatches_textCells hb
    have h2 := filterExcept_ok (siteMatches c) _ allWebsites
      (fun r hr => siteMatches_ok c r (ht r hr))
    unfold filterWebsites at h
    rw [h2] at h
    exact ⟨ht, (Except.ok.inj h).symm⟩
  · rintro ⟨ht, rfl⟩
    exact filterExcept_ok _ _ _ (fun r hr => siteMatches_ok c r (ht r hr))

theorem filterWebsites_tech_padded :
    filterWebsites techCriteria [paddedSite] = .ok [paddedSite] := by
  simp [filterWebsites, filterExcept, siteMatches, Record.get, List.lookup, JSVal.or,
    JSVal.truthy, JSVal.asString, readCriteria, emptyInputs, readBound, readSelector,
    parseInt, parseIntChars, JSVal.toStr, orZero, parseTraffic, rawPrice, parseFloat,
    parseFloatChars, signedLiteral, afterInteger, decimalLiteral, splitSign,
      toUpperCase, toLowerCase, removeCommas, includes,
    includesChars, JSNum.mul, round64_zero, JSNum.isNaN, JSNum.ge, JSNum.le,
      JSNum.truthy, JSNum.ofNat,
    trim, trimChars, isWhiteSpace, scale10, exponentPart, digitsVal, digitVal, bind,
    Except.bind, pure, Except.pure, techCriteria, paddedSite]

/-- C3.  When the criteria `c'` are `c` with a single bound relaxed and
`applyFilters` computes the list `l` under `c`, it computes a list under `c'`
too, and every record of `l` is in it, in the same relative order. -/
theorem applyFilters_monotone (c c' : Criteria) (hrelax : RelaxesOne c c')
    (allWebsites l : List Record) (hl : filterWebsites c allWebsites = .ok l) :
    ∃ l', filterWebsites c' allWebsites = .ok l' ∧ (∀ r ∈ l, r ∈ l') ∧
      l.Sublist l' := by
  obtain ⟨ht, rfl⟩ := (filterWebsites_eq_ok_iff c allWebsites l).1 hl
  refine ⟨_, (filterWebsites_eq_ok_iff c' allWebsites _).2 ⟨ht, rfl⟩, ?_, ?_⟩
  · intro r hr
    simp only [List.mem_filter, decide_eq_true_eq] at hr ⊢
    exact ⟨hr.1, satisfies_relax hrelax hr.2⟩
  · apply List.monotone_filter_right
    intro r hr
    simp only [decide_eq_true_eq] at hr ⊢
    exact satisfies_relax hrelax hr

/-- Witness of C3: clearing the category selector `Tech` on the list
`[paddedSite]`. -/
theorem applyFilters_monotone_witness :
    RelaxesOne techCriteria { techCriteria with category := "" } ∧
    filterWebsites techCriteria [paddedSite] = .ok [paddedSite] ∧
    ∃ l', filterWebsites { techCriteria with category := "" } [paddedSite] = .ok l' ∧
      (∀ r ∈ [paddedSite], r ∈ l') ∧ [paddedSite].Sublist l' :=
  ⟨RelaxesOne.category, filterWebsites_tech_padded,
    applyFilters_monotone techCriteria _ RelaxesOne.category [paddedSite] [paddedSite]
      filterWebsites_tech_padded⟩

/-! ## C4: the traffic value -/

theorem isDigit_iff (c : Char) : c.isDigit = true ↔ 48 ≤ c.toNat ∧ c.toNat ≤ 57 := by
  simp [Char.isDigit, Char.toNat, UInt32.le_def, Nat.le_antisymm_iff]
  rfl

theorem toUpper_eq_self {c : Char} (h : c.toNat < 97 ∨ 122 < c.toNat) : c.toUpper = c := by
  unfold Char.toUpper
  simp only
  rw [if_neg]
  omega

theorem toUpper_not_lower (c : Char) : ¬ (97 ≤ c.toUpper.toNat ∧ c.toUpper.toNat ≤ 122) := by
  unfold Char.toUpper
  simp only
  split
  · rename_i h
    obtain ⟨h1, h2⟩ := h
    generalize c.toNat = n at h1 h2
    interval_cases n <;> decide
  · assumption

theorem toUpper_not_digit {c : Char} (h : c.isDigit = false) : c.toUpper.isDigit = false := by
  unfold Char.toUpper
  simp only
  split
  · rename_i h'
    obtain ⟨h1, h2⟩ := h'
    generalize c.toNat = n at h1 h2
    interval_cases n <;> decide
  · exact h

theorem isWhiteSpace_digit {c : Char} (h : c.isDigit = true) : isWhiteSpace c = false := by
  have h' := (isDigit_iff c).1 h
  simp only [isWhiteSpace, Bool.or_eq_false_iff, beq_eq_false_iff_ne, Bool.and_eq_false_imp,
    decide_eq_true_eq, decide_eq_false_iff_not]
  omega

theorem splitSign_digit (c : Char) (cs : List Char) (h : c.isDigit = true) :
    splitSign (c :: cs) = (false, c :: cs) := by
  have h' := (isDigit_iff c).1 h
  unfold splitSign
  split
  · rename_i heq; cases heq; exact absurd h' (by decide)
  · rename_i heq; cases heq; exact absurd h' (by decide)
  · rfl

theorem takeWhile_digit_suffix (suffix : List Char)
    (hsuf : suffix = [] ∨ suffix = ['K'] ∨ suffix = ['M']) :
    suffix.takeWhile Char.isDigit = [] ∧ suffix.dropWhile Char.isDigit = suffix ∧
      exponentPart suffix = 0 := by
  rcases hsuf with rfl | rfl | rfl <;> decide

theorem decimalLiteral_digits (d : Char) (ds fs suffix : List Char)
    (hsuf : suffix = [] ∨ suffix = ['K'] ∨ suffix = ['M']) :
    decimalLiteral false (d :: ds) fs suffix
      = JSNum.round64 ((digitsVal (d :: ds ++ fs) : ℚ) / (10 : ℚ) ^ fs.length) := by
  obtain ⟨-, -, hs3⟩ := takeWhile_digit_suffix suffix hsuf
  simp only [decimalLiteral, List.isEmpty_cons, Bool.false_and, Bool.false_eq_true, if_false,
    hs3, zero_sub, scale10]
  cases fs with
  | nil => simp
  | cons f fs' =>
    have h : ¬ (0 : Int) ≤ -((f :: fs').length : Int) := by
      simp only [List.length_cons, Nat.cast_add, Nat.cast_one]
      omega
    rw [if_neg h]
    simp

theorem parseFloatChars_decimal (ds fs suffix : List Char)
    (hds : ∀ c ∈ ds, c.isDigit = true) (hne : ds ≠ [])
    (hfs : ∀ c ∈ fs, c.isDigit = true)
    (hsuf : suffix = [] ∨ suffix = ['K'] ∨ suffix = ['M']) :
    parseFloatChars (ds ++ ((if fs.isEmpty then [] else '.' :: fs) ++ suffix))
      = JSNum.round64 ((digitsVal (ds ++ fs) : ℚ) / (10 : ℚ) ^ fs.length) := by
  obtain ⟨hs1, hs2, hs3⟩ := takeWhile_digit_suffix suffix hsuf
  cases ds with
  | nil => exact absurd rfl hne
  | cons d ds' =>
    have hd : d.isDigit = true := hds d (List.mem_cons_self _ _)
    have hdI : ('I' == d) = false := by
      have h' := (isDigit_iff d).1 hd
      rw [beq_eq_false_iff_ne]
      rintro rfl
      exact absurd h' (by decide)
    have hinf : ∀ l, List.isPrefixOf "Infinity".data (d :: l) = false := by
      intro l
      show List.isPrefixOf ('I' :: _) _ = false
      simp [List.isPrefixOf, hdI]
    have hdrop : ∀ l, List.dropWhile isWhiteSpace (d :: l) = d :: l := by
      intro l
      simp [List.dropWhile, isWhiteSpace_digit hd]
    simp only [parseFloatChars, List.cons_append, hdrop, splitSign_digit d _ hd, signedLiteral,
      hinf, Bool.false_eq_true, if_false]
    rw [← List.cons_append, List.takeWhile_append_of_pos hds,
      List.dropWhile_append_of_pos hds]
    cases fs with
    | nil =>
      simp only [List.isEmpty_nil, if_true, List.nil_append, hs1, hs2, List.append_nil]
      have : afterInteger false (d :: ds') suffix = decimalLiteral false (d :: ds') [] suffix := by
        rcases hsuf with rfl | rfl | rfl <;> rfl
      rw [this, decimalLiteral_digits d ds' [] suffix hsuf, List.append_nil]
    | cons f fs' =>
      have hf : f.isDigit = true := hfs f (List.mem_cons_self _ _)
      simp only [List.isEmpty_cons, Bool.false_eq_true, if_false, List.cons_append]
      have hdot : List.takeWhile Char.isDigit ('.' :: f :: (fs' ++ suffix)) = [] := by
        rw [List.takeWhile_cons_of_neg (by decide)]
      have hdot2 : List.dropWhile Char.isDigit ('.' :: f :: (fs' ++ suffix))
          = '.' :: f :: (fs' ++ suffix) := by
        rw [List.dropWhile_cons_of_neg (by decide)]
      rw [hdot, hdot2, List.append_nil]
      have h1 : List.takeWhile Char.isDigit (f :: (fs' ++ suffix)) = f :: fs' := by
        have := @List.takeWhile_append_of_pos Char Char.isDigit (f :: fs') suffix hfs
        simpa [hs1] using this
      have h2 : List.dropWhile Char.isDigit (f :: (fs' ++ suffix)) = suffix := by
        have := @List.dropWhile_append_of_pos Char Char.isDigit (f :: fs') suffix hfs
        simpa [hs2] using this
      simp only [afterInteger, h1, h2]
      exact decimalLiteral_digits d ds' (f :: fs') suffix hsuf

theorem singleton_infix_iff (a : Char) (l : List Char) : [a] <:+: l ↔ a ∈ l := by
  constructor
  · rintro ⟨s, t, rfl⟩
    simp
  · intro h
    obtain ⟨s, t, rfl⟩ := List.append_of_mem h
    exact ⟨s, t, by simp⟩

theorem includes_K (l : List Char) : includes ⟨l⟩ "K" = true ↔ 'K' ∈ l := by
  rw [includes_iff]
  exact singleton_infix_iff 'K' l

theorem includes_M (l : List Char) : includes ⟨l⟩ "M" = true ↔ 'M' ∈ l := by
  rw [includes_iff]
  exact singleton_infix_iff 'M' l

theorem map_toUpper_eq_self (l : List Char) (h : ∀ c ∈ l, c.toNat < 97 ∨ 122 < c.toNat) :
    l.map Char.toUpper = l := by
  induction l with
  | nil => rfl
  | cons c cs ih =>
    rw [List.map_cons, toUpper_eq_self (h c (List.mem_cons_self _ _)),
      ih (fun x hx => h x (List.mem_cons_of_mem _ hx))]

/-- The characters of a decimal text are digits, commas, a point, `K` or `M`. -/
theorem decimalText_chars {ip fp suffix : List Char} (hdec : IsDecimal ip fp)
    (hsuf : suffix = [] ∨ suffix = ['K'] ∨ suffix = ['M']) :
    ∀ c ∈ (decimalText ip fp suffix).data,
      c.isDigit = true ∨ c = ',' ∨ c = '.' ∨ (c ∈ suffix ∧ (c = 'K' ∨ c = 'M')) := by
  intro c hc
  simp only [decimalText, List.mem_append] at hc
  rcases hc with (hc | hc) | hc
  · rcases hdec.1 c hc with h | h
    · exact Or.inl h
    · exact Or.inr (Or.inl h)
  · split at hc
    · cases hc
    · rcases List.mem_cons.1 hc with rfl | hc
      · exact Or.inr (Or.inr (Or.inl rfl))
      · exact Or.inl (hdec.2.2 c hc)
  · refine Or.inr (Or.inr (Or.inr ⟨hc, ?_⟩))
    rcases hsuf with rfl | rfl | rfl
    · cases hc
    · exact Or.inl (List.mem_singleton.1 hc)
    · exact Or.inr (List.mem_singleton.1 hc)

theorem parseTraffic_decimal (ip fp suffix : List Char) (hdec : IsDecimal ip fp)
    (hsuf : suffix = [] ∨ suffix = ['K'] ∨ suffix = ['M']) :
    parseTraffic (.str (decimalText ip fp suffix)) =
      (if suffix = ['K'] then (JSNum.round64 (decimalValue ip fp)).mul (.fin 1000)
       else if suffix = ['M'] then (JSNum.round64 (decimalValue ip fp)).mul (.fin 1000000)
       else JSNum.round64 (decimalValue ip fp)) := by
  have hchars := decimalText_chars hdec hsuf
  obtain ⟨hip, ⟨d0, hd0, hd0d⟩, hfp⟩ := hdec
  -- the cell is a non-empty string
  have htruthy : (JSVal.str (decimalText ip fp suffix)).truthy = true := by
    simp only [JSVal.truthy, decimalText, Bool.not_eq_true', List.isEmpty_eq_false]
    intro h
    have : d0 ∈ ip ++ (if fp.isEmpty then [] else '.' :: fp) ++ suffix := by
      simp [hd0]
    rw [h] at this
    cases this
  -- upper-casing changes nothing
  have hupper : toUpperCase (decimalText ip fp suffix) = decimalText ip fp suffix := by
    unfold toUpperCase
    rw [map_toUpper_eq_self]
    intro c hc
    rcases hchars c hc with h | rfl | rfl | ⟨-, rfl | rfl⟩
    · have := (isDigit_iff c).1 h
      omega
    all_goals decide
  -- removing the commas leaves the digits, the point and the suffix
  have hcomma : (removeCommas (decimalText ip fp suffix)).data
      = ip.filter (fun c => c != ',') ++ ((if fp.isEmpty then [] else '.' :: fp) ++ suffix) := by
    simp only [removeCommas, decimalText, List.filter_append, List.append_assoc]
    congr 1
    have h1 : List.filter (fun c => c != ',') (if fp.isEmpty then [] else '.' :: fp)
        = (if fp.isEmpty then [] else '.' :: fp) := by
      rw [List.filter_eq_self]
      intro c hc
      split at hc
      · cases hc
      · rcases List.mem_cons.1 hc with rfl | hc
        · decide
        · have := (isDigit_iff c).1 (hfp c hc)
          simp only [bne_iff_ne, ne_eq]
          rintro rfl
          exact absurd this (by decide)
    have h2 : List.filter (fun c => c != ',') suffix = suffix := by
      rcases hsuf with rfl | rfl | rfl <;> decide
    rw [h1, h2]
  have hds : ∀ c ∈ ip.filter (fun c => c != ','), c.isDigit = true := by
    intro c hc
    rw [List.mem_filter] at hc
    rcases hip c hc.1 with h | rfl
    · exact h
    · exact absurd hc.2 (by decide)
  have hne : ip.filter (fun c => c != ',') ≠ [] := by
    intro h
    have : d0 ∈ ip.filter (fun c => c != ',') := by
      rw [List.mem_filter]
      refine ⟨hd0, ?_⟩
      have := (isDigit_iff d0).1 hd0d
      simp only [bne_iff_ne, ne_eq]
      rintro rfl
      exact absurd this (by decide)
    rw [h] at this
    cases this
  have hparse : parseFloat (.str (removeCommas (decimalText ip fp suffix)))
      = JSNum.round64 (decimalValue ip fp) := by
    unfold parseFloat
    simp only [JSVal.toStr, hcomma]
    exact parseFloatChars_decimal _ fp suffix hds hne hfp hsuf
  have hK : includes (decimalText ip fp suffix) "K" = true ↔ suffix = ['K'] := by
    unfold decimalText
    rw [includes_K]
    constructor
    · intro h
      rcases hchars 'K' h with h | h | h | ⟨hm, -⟩
      · exact absurd h (by decide)
      · exact absurd h (by decide)
      · exact absurd h (by decide)
      · rcases hsuf with rfl | rfl | rfl
        · cases hm
        · rfl
        · exact absurd (List.mem_singleton.1 hm) (by decide)
    · rintro rfl
      simp
  have hM : includes (decimalText ip fp suffix) "M" = true ↔ suffix = ['M'] := by
    unfold decimalText
    rw [includes_M]
    constructor
    · intro h
      rcases hchars 'M' h with h | h | h | ⟨hm, -⟩
      · exact absurd h (by decide)
      · exact absurd h (by decide)
      · exact absurd h (by decide)
      · rcases hsuf with rfl | rfl | rfl
        · cases hm
        · exact absurd (List.mem_singleton.1 hm) (by decide)
        · rfl
    · rintro rfl
      simp
  simp only [parseTraffic, JSVal.or, htruthy, if_true, JSVal.toStr, hupper, hparse]
  rcases hsuf with rfl | rfl | rfl
  · have h1 : includes (decimalText ip fp []) "K" = false := by
      rw [← Bool.not_eq_true, hK]; decide
    have h2 : includes (decimalText ip fp []) "M" = false := by
      rw [← Bool.not_eq_true, hM]; decide
    simp [h1, h2, isNaN_eq_false (round64_ne_nan _)]
  · have h1 : includes (decimalText ip fp ['K']) "K" = true := hK.2 rfl
    have h2 : includes (decimalText ip fp ['K']) "M" = false := by
      rw [← Bool.not_eq_true, hM]; decide
    simp [h1, h2,
      isNaN_eq_false (mul_pos_ne_nan _ 1000 (by norm_num) (round64_ne_nan _))]
  · have h1 : includes (decimalText ip fp ['M']) "K" = false := by
      rw [← Bool.not_eq_true, hK]; decide
    have h2 : includes (decimalText ip fp ['M']) "M" = true := hM.2 rfl
    simp [h1, h2,
      isNaN_eq_false (mul_pos_ne_nan _ 1000000 (by norm_num) (round64_ne_nan _))]

theorem toUpper_cases (c : Char) :
    c.toUpper = c ∨
      ((97 ≤ c.toNat ∧ c.toNat ≤ 122) ∧
        65 ≤ c.toUpper.toNat ∧ c.toUpper.toNat ≤ 90) := by
  by_cases h : 97 ≤ c.toNat ∧ c.toNat ≤ 122
  · right
    refine ⟨h, ?_⟩
    unfold Char.toUpper
    simp only
    rw [if_pos h]
    obtain ⟨h1, h2⟩ := h
    generalize c.toNat = n at h1 h2
    interval_cases n <;> decide
  · left
    exact toUpper_eq_self (by omega)

/-- Upper-casing neither makes nor unmakes a character that is no letter. -/
theorem toUpper_eq_iff (c k : Char) (hk : k.toNat < 65 ∨ 122 < k.toNat) :
    c.toUpper = k ↔ c = k := by
  constructor
  · intro h
    rcases toUpper_cases c with h' | ⟨-, h1, h2⟩
    · rw [← h, h']
    · rw [h] at h1 h2
      omega
  · rintro rfl
    exact toUpper_eq_self (by omega)

theorem isDigit_toUpper (c : Char) : c.toUpper.isDigit = c.isDigit := by
  rcases toUpper_cases c with h | ⟨hl, h1, h2⟩
  · rw [h]
  · have e1 : c.toUpper.isDigit = false := by
      rw [← Bool.not_eq_true, isDigit_iff]
      omega
    have e2 : c.isDigit = false := by
      rw [← Bool.not_eq_true, isDigit_iff]
      omega
    rw [e1, e2]

theorem isWhiteSpace_of_le {c : Char} (h : 33 ≤ c.toNat ∧ c.toNat ≤ 159) :
    isWhiteSpace c = false := by
  simp only [isWhiteSpace, Bool.or_eq_false_iff, beq_eq_false_iff_ne, Bool.and_eq_false_imp,
    decide_eq_true_eq, decide_eq_false_iff_not]
  omega

theorem isWhiteSpace_toUpper (c : Char) : isWhiteSpace c.toUpper = isWhiteSpace c := by
  rcases toUpper_cases c with h | ⟨hl, h1, h2⟩
  · rw [h]
  · rw [isWhiteSpace_of_le (by omega), isWhiteSpace_of_le (by omega)]

theorem filter_comma_map_toUpper (l : List Char) :
    (l.map Char.toUpper).filter (fun c => c != ',')
      = (l.filter (fun c => c != ',')).map Char.toUpper := by
  induction l with
  | nil => rfl
  | cons c cs ih =>
    by_cases h : c = ','
    · subst h
      have e : Char.toUpper ',' = ',' := rfl
      simp only [List.map_cons, e]
      rw [List.filter_cons_of_neg (by decide), List.filter_cons_of_neg (by decide), ih]
    · have h' : c.toUpper ≠ ',' := fun e =>
        h ((toUpper_eq_iff c ',' (Or.inl (by decide))).1 e)
      rw [List.map_cons, List.filter_cons_of_pos (by simpa using h'),
        List.filter_cons_of_pos (by simpa using h), List.map_cons, ih]

theorem dropWhile_ws_map_toUpper (l : List Char) :
    (l.map Char.toUpper).dropWhile isWhiteSpace
      = (l.dropWhile isWhiteSpace).map Char.toUpper := by
  induction l with
  | nil => rfl
  | cons c cs ih =>
    cases hw : isWhiteSpace c with
    | true =>
      rw [List.map_cons, List.dropWhile_cons_of_pos (by rw [isWhiteSpace_toUpper, hw]),
        List.dropWhile_cons_of_pos hw, ih]
    | false =>
      rw [List.map_cons,
        List.dropWhile_cons_of_neg (by rw [isWhiteSpace_toUpper, hw]; decide),
        List.dropWhile_cons_of_neg (by rw [hw]; decide), List.map_cons]

theorem splitSign_of_ne (c : Char) (cs : List Char) (h1 : c ≠ '-') (h2 : c ≠ '+') :
    splitSign (c :: cs) = (false, c :: cs) := by
  unfold splitSign
  split
  · rename_i heq; cases heq; exact absurd rfl h1
  · rename_i heq; cases heq; exact absurd rfl h2
  · rfl

theorem startsNumber_of_ne (c : Char) (cs : List Char) (hc : c ≠ '.') :
    startsNumber (c :: cs) = c.isDigit := by
  unfold startsNumber
  split
  · rename_i heq; cases heq; exact absurd rfl hc
  · rename_i heq; cases heq; rfl
  · rename_i heq; cases heq

theorem splitSign_map_toUpper (l : List Char) :
    (splitSign (l.map Char.toUpper)).2 = (splitSign l).2.map Char.toUpper := by
  cases l with
  | nil => rfl
  | cons c cs =>
    by_cases h1 : c = '-'
    · subst h1
      rfl
    · by_cases h2 : c = '+'
      · subst h2
        rfl
      · have h1' : c.toUpper ≠ '-' := fun e =>
          h1 ((toUpper_eq_iff c '-' (Or.inl (by decide))).1 e)
        have h2' : c.toUpper ≠ '+' := fun e =>
          h2 ((toUpper_eq_iff c '+' (Or.inl (by decide))).1 e)
        rw [List.map_cons, splitSign_of_ne c cs h1 h2,
          splitSign_of_ne c.toUpper (cs.map Char.toUpper) h1' h2']
        rfl

theorem startsNumber_map_toUpper (l : List Char) :
    startsNumber (l.map Char.toUpper) = startsNumber l := by
  cases l with
  | nil => rfl
  | cons c cs =>
    by_cases hc : c = '.'
    · subst hc
      cases cs with
      | nil => rfl
      | cons d ds =>
        show d.toUpper.isDigit = d.isDigit
        exact isDigit_toUpper d
    · have hc' : c.toUpper ≠ '.' := fun e =>
        hc ((toUpper_eq_iff c '.' (Or.inl (by decide))).1 e)
      rw [List.map_cons, startsNumber_of_ne c cs hc,
        startsNumber_of_ne c.toUpper (cs.map Char.toUpper) hc', isDigit_toUpper]

theorem takeWhile_isDigit_head (l : List Char)
    (h : ∀ c rest, l = c :: rest → c.isDigit = false) :
    l.takeWhile Char.isDigit = [] ∧ l.dropWhile Char.isDigit = l := by
  cases l with
  | nil => exact ⟨rfl, rfl⟩
  | cons c cs =>
    have hc := h c cs rfl
    simp [List.takeWhile, List.dropWhile, hc]

theorem signedLiteral_nan (neg : Bool) (r : List Char) (hnum : startsNumber r = false)
    (hinf : List.isPrefixOf "Infinity".data r = false) : signedLiteral neg r = .nan := by
  simp only [signedLiteral, hinf, Bool.false_eq_true, if_false]
  cases r with
  | nil => simp [afterInteger, decimalLiteral]
  | cons c cs =>
    by_cases hc : c = '.'
    · subst hc
      have hcs : ∀ d rest, cs = d :: rest → d.isDigit = false := by
        rintro d rest rfl
        exact hnum
      obtain ⟨h1, -⟩ := takeWhile_isDigit_head cs hcs
      rw [List.takeWhile_cons_of_neg (by decide), List.dropWhile_cons_of_neg (by decide)]
      simp [afterInteger, decimalLiteral, h1]
    · have hd : c.isDigit = false := by
        rw [← startsNumber_of_ne c cs hc]
        exact hnum
      rw [List.takeWhile_cons_of_neg (by simp [hd]), List.dropWhile_cons_of_neg (by simp [hd])]
      unfold afterInteger
      split
      · rename_i heq; cases heq; exact absurd rfl hc
      · simp [decimalLiteral]

theorem splitSign_subset (l : List Char) : ∀ c ∈ (splitSign l).2, c ∈ l := by
  intro c hc
  unfold splitSign at hc
  split at hc
  · exact List.mem_cons_of_mem _ hc
  · exact List.mem_cons_of_mem _ hc
  · exact hc

/-- A text that starts with no number has the traffic value 0. -/
theorem parseTraffic_no_number (t : String) (h : NoLeadingNumber t) :
    parseTraffic (.str t) = .fin 0 := by
  by_cases ht : (JSVal.str t).truthy = true
  · have hclean : (splitSign ((removeCommas (toUpperCase t)).data.dropWhile isWhiteSpace)).2
        = ((splitSign ((t.data.filter (fun c => c != ',')).dropWhile isWhiteSpace)).2).map
            Char.toUpper := by
      simp only [removeCommas, toUpperCase]
      rw [filter_comma_map_toUpper, dropWhile_ws_map_toUpper, splitSign_map_toUpper]
    have hnum : startsNumber
        (splitSign ((removeCommas (toUpperCase t)).data.dropWhile isWhiteSpace)).2 = false := by
      rw [hclean, startsNumber_map_toUpper]
      exact h
    have hinf : List.isPrefixOf "Infinity".data
        (splitSign ((removeCommas (toUpperCase t)).data.dropWhile isWhiteSpace)).2 = false := by
      rw [← Bool.not_eq_true, List.isPrefixOf_iff_prefix, hclean]
      intro hp
      have hn : 'n' ∈ ((splitSign ((t.data.filter (fun c => c != ',')).dropWhile
          isWhiteSpace)).2).map Char.toUpper := hp.subset (by decide)
      obtain ⟨a, -, ha⟩ := List.mem_map.1 hn
      have := toUpper_not_lower a
      rw [ha] at this
      exact this (by decide)
    have hparse : parseFloat (.str (removeCommas (toUpperCase t))) = .nan := by
      unfold parseFloat parseFloatChars
      exact signedLiteral_nan _ _ hnum hinf
    simp only [parseTraffic, JSVal.or, ht, if_true, JSVal.toStr, hparse]
    split <;> split <;> simp [JSNum.mul, JSNum.isNaN]
  · have ht2 : t = "" := by
      simp only [JSVal.truthy, Bool.not_eq_true', Bool.not_eq_false, List.isEmpty_iff] at ht
      exact String.ext ht
    subst ht2
    simp [parseTraffic, JSVal.or, JSVal.truthy, JSVal.toStr, toUpperCase, removeCommas,
      includes, includesChars, parseFloat, parseFloatChars, signedLiteral, afterInteger,
      decimalLiteral, splitSign, isWhiteSpace, scale10, exponentPart, digitsVal, digitVal,
      round64_zero, JSNum.isNaN]

theorem round64_six_fifths :
    JSNum.round64 (6 / 5) = .fin (5404319552844595 / 4503599627370496) := by
  have h := round64_eq (6 / 5) 0 5404319552844595 (by norm_num) (by norm_num)
    (by norm_num) (by norm_num)
    (by rw [abs_lt]; norm_num [zpow_neg]) (by rw [abs_lt]; norm_num [zpow_neg])
  rw [h]
  norm_num [zpow_neg]

theorem round64_forty_one_fifths :
    JSNum.round64 (41 / 5) = .fin (2308094809027379 / 281474976710656) := by
  have h := round64_eq (41 / 5) 3 4616189618054758 (by norm_num) (by norm_num)
    (by norm_num) (by norm_num)
    (by rw [abs_lt]; norm_num [zpow_neg]) (by rw [abs_lt]; norm_num [zpow_neg])
  rw [h]
  norm_num [zpow_neg]

theorem round64_times_thousand :
    JSNum.round64 (5404319552844595 / 4503599627370496 * 1000) = .fin 1200 := by
  have h := round64_eq (5404319552844595 / 4503599627370496 * 1000) 10 5277655813324800
    (by norm_num) (by norm_num) (by norm_num) (by norm_num)
    (by rw [abs_lt]; norm_num [zpow_neg]) (by rw [abs_lt]; norm_num [zpow_neg])
  rw [h]
  norm_num [zpow_neg]

theorem round64_times_million :
    JSNum.round64 (2308094809027379 / 281474976710656 * 1000000)
      = .fin (8804682956799999 / 1073741824) := by
  have h := round64_eq (2308094809027379 / 281474976710656 * 1000000) 22 8804682956799999
    (by norm_num) (by norm_num) (by norm_num) (by norm_num)
    (by rw [abs_lt]; norm_num [zpow_neg]) (by rw [abs_lt]; norm_num [zpow_neg])
  rw [h]
  norm_num [zpow_neg]

theorem decimalValue_whole (ip : List Char) :
    decimalValue ip [] = ((digitsVal (ip.filter (fun c => c != ',')) : Nat) : ℚ) := by
  simp [decimalValue]

/-- The traffic value of a whole number is exact while the product stays below
`2 ^ 53`. -/
theorem parseTraffic_whole (ip suffix : List Char) (k : Nat) (hdec : IsDecimal ip [])
    (hsuf : suffix = [] ∧ k = 1 ∨ suffix = ['K'] ∧ k = 1000 ∨
      suffix = ['M'] ∧ k = 1000000)
    (hlt : digitsVal (ip.filter (fun c => c != ',')) * k < 2 ^ 53) :
    parseTraffic (.str (decimalText ip [] suffix))
      = .fin (decimalValue ip [] * (k : ℚ)) := by
  have hk : 0 < k := by rcases hsuf with ⟨-, rfl⟩ | ⟨-, rfl⟩ | ⟨-, rfl⟩ <;> norm_num
  have hn : digitsVal (ip.filter (fun c => c != ',')) < 2 ^ 53 :=
    lt_of_le_of_lt (Nat.le_mul_of_pos_right _ hk) hlt
  have hr : JSNum.round64 (decimalValue ip []) = .fin (decimalValue ip []) := by
    rw [decimalValue_whole]
    exact round64_natCast _ hn
  have hprod : JSNum.round64 (decimalValue ip [] * (k : ℚ))
      = .fin (decimalValue ip [] * (k : ℚ)) := by
    rw [decimalValue_whole, ← Nat.cast_mul]
    exact round64_natCast _ hlt
  rcases hsuf with ⟨rfl, rfl⟩ | ⟨rfl, rfl⟩ | ⟨rfl, rfl⟩
  · rw [parseTraffic_decimal ip [] [] hdec (Or.inl rfl), if_neg (by decide),
      if_neg (by decide), hr]
    simp
  · rw [parseTraffic_decimal ip [] ['K'] hdec (Or.inr (Or.inl rfl)), if_pos rfl, hr]
    simpa [JSNum.mul] using hprod
  · rw [parseTraffic_decimal ip [] ['M'] hdec (Or.inr (Or.inr rfl)), if_neg (by decide),
      if_pos rfl, hr]
    simpa [JSNum.mul] using hprod

/-- C4 (as amended).  The traffic value of `applyFilters` maps `"1.2K"` to 1200,
`"3M"` to 3000000, `"500"` to 500, and the empty text and every text that starts
with no number to 0.  For a decimal number `n` written with optional comma
separators and followed by no suffix, `K` or `M`, it is the binary64 value of
`n`, or the binary64 product of that value and 1000 or 1000000; that is `n`,
`n * 1000` or `n * 1000000` itself when `n` is a whole number and the result is
below `2 ^ 53`. -/
theorem parseTraffic_spec (t : String) (ht : NoLeadingNumber t)
    (ip fp : List Char) (hdec : IsDecimal ip fp) :
    parseTraffic (.str "1.2K") = .fin 1200 ∧
    parseTraffic (.str "3M") = .fin 3000000 ∧
    parseTraffic (.str "500") = .fin 500 ∧
    parseTraffic (.str "") = .fin 0 ∧
    parseTraffic (.str t) = .fin 0 ∧
    parseTraffic (.str (decimalText ip fp [])) = JSNum.round64 (decimalValue ip fp) ∧
    parseTraffic (.str (decimalText ip fp ['K']))
      = (JSNum.round64 (decimalValue ip fp)).mul (.fin 1000) ∧
    parseTraffic (.str (decimalText ip fp ['M']))
      = (JSNum.round64 (decimalValue ip fp)).mul (.fin 1000000) ∧
    (fp = [] → decimalValue ip fp < 2 ^ 53 →
      parseTraffic (.str (decimalText ip fp [])) = .fin (decimalValue ip fp)) ∧
    (fp = [] → decimalValue ip fp * 1000 < 2 ^ 53 →
      parseTraffic (.str (decimalText ip fp ['K'])) = .fin (decimalValue ip fp * 1000)) ∧
    (fp = [] → decimalValue ip fp * 1000000 < 2 ^ 53 →
      parseTraffic (.str (decimalText ip fp ['M']))
        = .fin (decimalValue ip fp * 1000000)) := by
  have hone : IsDecimal ['1'] ['2'] := ⟨by decide, ⟨'1', by decide, by decide⟩, by decide⟩
  have hthree : IsDecimal ['3'] [] := ⟨by decide, ⟨'3', by decide, by decide⟩, by decide⟩
  have hfive : IsDecimal ['5', '0', '0'] [] :=
    ⟨by decide, ⟨'5', by decide, by decide⟩, by decide⟩
  refine ⟨?_, ?_, ?_, ?_, parseTraffic_no_number t ht, ?_, ?_, ?_, ?_, ?_, ?_⟩
  · have hv : decimalValue ['1'] ['2'] = 6 / 5 := by
      have : digitsVal (List.filter (fun c => c != ',') ['1'] ++ ['2']) = 12 := by decide
      simp only [decimalValue, this]
      norm_num
    have := parseTraffic_decimal ['1'] ['2'] ['K'] hone (Or.inr (Or.inl rfl))
    rw [show decimalText ['1'] ['2'] ['K'] = "1.2K" from rfl, hv, if_pos rfl,
      round64_six_fifths] at this
    rw [this]
    exact round64_times_thousand
  · have hv : decimalValue ['3'] [] * ((1000000 : Nat) : ℚ) = 3000000 := by
      have : digitsVal (List.filter (fun c => c != ',') ['3'] ++ []) = 3 := by decide
      simp only [decimalValue, this]
      norm_num
    have := parseTraffic_whole ['3'] ['M'] 1000000 hthree (Or.inr (Or.inr ⟨rfl, rfl⟩))
      (by
        have : digitsVal (List.filter (fun c => c != ',') ['3']) = 3 := by decide
        rw [this]
        norm_num)
    rw [show decimalText ['3'] [] ['M'] = "3M" from rfl, hv] at this
    exact this
  · have hv : decimalValue ['5', '0', '0'] [] * ((1 : Nat) : ℚ) = 500 := by
      have : digitsVal (List.filter (fun c => c != ',') ['5', '0', '0'] ++ []) = 500 := by
        decide
      simp only [decimalValue, this]
      norm_num
    have := parseTraffic_whole ['5', '0', '0'] [] 1 hfive (Or.inl ⟨rfl, rfl⟩)
      (by
        have : digitsVal (List.filter (fun c => c != ',') ['5', '0', '0']) = 500 := by
          decide
        rw [this]
        norm_num)
    rw [show decimalText ['5', '0', '0'] [] [] = "500" from rfl, hv] at this
    exact this
  · exact parseTraffic_no_number "" (by decide)
  · simpa using parseTraffic_decimal ip fp [] hdec (Or.inl rfl)
  · simpa using parseTraffic_decimal ip fp ['K'] hdec (Or.inr (Or.inl rfl))
  · simpa using parseTraffic_decimal ip fp ['M'] hdec (Or.inr (Or.inr rfl))
  · rintro rfl hlt
    have h := parseTraffic_whole ip [] 1 hdec (Or.inl ⟨rfl, rfl⟩)
      (by
        rw [decimalValue_whole] at hlt
        rw [Nat.mul_one]
        exact_mod_cast hlt)
    simpa using h
  · rintro rfl hlt
    have h := parseTraffic_whole ip ['K'] 1000 hdec (Or.inr (Or.inl ⟨rfl, rfl⟩))
      (by
        rw [decimalValue_whole] at hlt
        exact_mod_cast hlt)
    simpa using h
  · rintro rfl hlt
    have h := parseTraffic_whole ip ['M'] 1000000 hdec (Or.inr (Or.inr ⟨rfl, rfl⟩))
      (by
        rw [decimalValue_whole] at hlt
        exact_mod_cast hlt)
    simpa using h

/-- Witness of C4: the texts `"abc1"` and `"1,234"`. -/
theorem parseTraffic_spec_witness :
    NoLeadingNumber "abc1" ∧ IsDecimal "1,234".data [] ∧
    parseTraffic (.str "abc1") = .fin 0 ∧
    parseTraffic (.str (decimalText "1,234".data [] ['K']))
      = (JSNum.round64 (decimalValue "1,234".data [])).mul (.fin 1000) ∧
    (([] : List Char) = [] → decimalValue "1,234".data [] * 1000 < 2 ^ 53 →
      parseTraffic (.str (decimalText "1,234".data [] ['K']))
        = .fin (decimalValue "1,234".data [] * 1000)) :=
  have h1 : NoLeadingNumber "abc1" := by decide
  have h2 : IsDecimal "1,234".data [] :=
    ⟨by decide, ⟨'1', by decide, by decide⟩, by decide⟩
  have h := parseTraffic_spec "abc1" h1 "1,234".data [] h2
  ⟨h1, h2, h.2.2.2.2.1, h.2.2.2.2.2.2.1, h.2.2.2.2.2.2.2.2.2.1⟩

/-- C4 as stated fails.  The text `"8.2M"` is the decimal number 8.2 followed by
`M`, and 8.2 * 1000000 is 8200000; the traffic value is 8199999.999999999, the
binary64 number one unit in the last place below 8200000. -/
theorem parseTraffic_product_rounds :
    IsDecimal ['8'] ['2'] ∧ decimalText ['8'] ['2'] ['M'] = "8.2M" ∧
    decimalValue ['8'] ['2'] * 1000000 = 8200000 ∧
    parseTraffic (.str "8.2M") = .fin (8200000 - 1 / 2 ^ 30) ∧
    parseTraffic (.str "8.2M") ≠ .fin 8200000 := by
  have hdec : IsDecimal ['8'] ['2'] := ⟨by decide, ⟨'8', by decide, by decide⟩, by decide⟩
  have hv : decimalValue ['8'] ['2'] = 41 / 5 := by
    have : digitsVal (List.filter (fun c => c != ',') ['8'] ++ ['2']) = 82 := by decide
    simp only [decimalValue, this]
    norm_num
  have hp : parseTraffic (.str "8.2M") = .fin (8200000 - 1 / 2 ^ 30) := by
    have := parseTraffic_decimal ['8'] ['2'] ['M'] hdec (Or.inr (Or.inr rfl))
    rw [show decimalText ['8'] ['2'] ['M'] = "8.2M" from rfl, hv, if_neg (by decide),
      if_pos rfl, round64_forty_one_fifths] at this
    rw [this]
    show JSNum.round64 (2308094809027379 / 281474976710656 * 1000000) = _
    rw [round64_times_million]
    norm_num
  refine ⟨hdec, rfl, ?_, hp, ?_⟩
  · rw [hv]
    norm_num
  · rw [hp]
    intro h
    have := JSNum.fin.inj h
    norm_num at this

/-! ## C5: page count and page window -/

theorem totalPages_le_iff (l : List Record) (k : Nat) :
    totalPages l ≤ k ↔ l.length ≤ 50 * k := by
  unfold totalPages itemsPerPage
  rw [Nat.ceil_le, div_le_iff₀ (by norm_num), ← Nat.cast_mul, Nat.cast_le, mul_comm]

theorem totalPages_eq (l : List Record) : totalPages l = (l.length + 49) / 50 := by
  apply eq_of_forall_ge_iff
  intro k
  rw [totalPages_le_iff]
  omega

theorem slice_window {α : Type} (xs : List α) (a w : Nat) :
    slice xs (a : Int) ((a : Int) + (w : Int)) = (xs.take (min (a + w) xs.length)).drop a := by
  unfold slice
  have h1 : ¬ ((a : Int) < 0) := by omega
  have h2 : ¬ ((a : Int) + (w : Int) < 0) := by omega
  simp only [h1, h2, if_false]
  rw [List.drop_take]
  by_cases ha : a ≤ xs.length
  · have e1 : (min (a : Int) (xs.length : Int)).toNat = a := by omega
    have e2 : (min ((a : Int) + (w : Int)) (xs.length : Int)
        - min (a : Int) (xs.length : Int)).toNat = min (a + w) xs.length - a := by omega
    rw [e1, e2]
  · have e1 : (min (a : Int) (xs.length : Int)).toNat = xs.length := by omega
    rw [e1, List.drop_eq_nil_of_le (le_refl _), List.drop_eq_nil_of_le (by omega)]
    simp

/-- C5.  The page count is the ceiling of `n / 50`, that is the least `k` with
`n ≤ 50 * k`, and `0` for an empty list; for a page `p ≥ 1` the window drawn is
the run of the filtered list at the indices from `(p - 1) * 50` up to, not
including, `min (p * 50) n`, in order; for `n = 120` there are 3 pages and page 2
holds the records at the indices 50 to 99. -/
theorem pagination_window (filtered : List Record) (p : Nat) (hp : 1 ≤ p) :
    totalPages filtered = ⌈(filtered.length : ℚ) / 50⌉₊ ∧
    (∀ k, totalPages filtered ≤ k ↔ filtered.length ≤ 50 * k) ∧
    (filtered.length = 0 → totalPages filtered = 0) ∧
    paginatedItems filtered (p : Int)
      = (filtered.take (min (p * 50) filtered.length)).drop ((p - 1) * 50) ∧
    (∀ i, (paginatedItems filtered (p : Int))[i]?
      = if (p - 1) * 50 + i < min (p * 50) filtered.length
        then filtered[(p - 1) * 50 + i]? else none) ∧
    (filtered.length = 120 → totalPages filtered = 3 ∧
      paginatedItems filtered 2 = (filtered.take 100).drop 50) := by
  have hwin : paginatedItems filtered (p : Int)
      = (filtered.take (min (p * 50) filtered.length)).drop ((p - 1) * 50) := by
    unfold paginatedItems itemsPerPage
    have e : ((p : Int) - 1) * ((50 : Nat) : Int) = (((p - 1) * 50 : Nat) : Int) := by
      push_cast [Nat.cast_sub hp]
      ring
    simp only [e]
    rw [slice_window]
    have e2 : (p - 1) * 50 + 50 = p * 50 := by omega
    rw [e2]
  refine ⟨rfl, totalPages_le_iff filtered, ?_, hwin, ?_, ?_⟩
  · intro h
    rw [totalPages_eq, h]
  · intro i
    rw [hwin, List.getElem?_drop, List.getElem?_take]
  · intro h
    refine ⟨by rw [totalPages_eq, h], ?_⟩
    have := slice_window filtered 50 50
    unfold paginatedItems itemsPerPage
    rw [h] at this
    simpa using this

/-- Witness of C5: page 1 of a two-record list. -/
theorem pagination_window_witness :
    1 ≤ 1 ∧ totalPages [paddedSite, numericDomainSite] = 1 ∧
    paginatedItems [paddedSite, numericDomainSite] ((1 : Nat) : Int)
      = [paddedSite, numericDomainSite] :=
  ⟨le_refl 1,
    by rw [(pagination_window [paddedSite, numericDomainSite] 1 (le_refl 1)).1]
       rw [Nat.ceil_eq_iff (by norm_num)]
       norm_num,
    by rw [(pagination_window [paddedSite, numericDomainSite] 1 (le_refl 1)).2.2.2.1]
       rfl⟩

/-! ## C6: `changePage` and the current page -/

theorem totalPages_cast (l : List Record) :
    ((totalPages l : Nat) : Int) = ⌈(l.length : ℚ) / 50⌉ :=
  Int.natCast_ceil_eq_ceil (by positivity)

theorem PageCall.run_inRange (s : State) (call : PageCall) (h : PageInRange s) :
    PageInRange (call.run s) := by
  cases call with
  | changePage page =>
    simp only [PageCall.run, Marketplace.changePage]
    split
    · exact h
    · rename_i hp
      constructor <;> simp only [PageInRange] <;> omega
  | applyFilters inp =>
    simp only [PageCall.run, Marketplace.applyFilters]
    cases filterWebsites (readCriteria inp) s.allWebsites with
    | error e => exact h
    | ok l => exact ⟨le_refl _, le_max_left _ _⟩

theorem runPage_inRange (calls : List PageCall) :
    ∀ s : State, PageInRange s → PageInRange (runPage calls s) := by
  induction calls with
  | nil => intro s h; exact h
  | cons call calls ih =>
    intro s h
    exact ih _ (PageCall.run_inRange s call h)

/-- C6.  `changePage(target)` leaves the state unchanged when `target < 1` or
`target > ceil(filtered.length / 50)`, and otherwise sets the current page to
`target` and changes nothing else.  From a state with current page 1, after any
sequence of `changePage` and `applyFilters` calls the current page lies between
1 and `max(1, page count)`. -/
theorem changePage_bounds (s : State) (target : Int) (calls : List PageCall) (s0 : State)
    (h0 : s0.currentPage = 1) :
    ((target < 1 ∨ target > ⌈(s.filteredWebsites.length : ℚ) / 50⌉) →
      changePage target s = s) ∧
    (¬ (target < 1 ∨ target > ⌈(s.filteredWebsites.length : ℚ) / 50⌉) →
      changePage target s = { s with currentPage := target }) ∧
    1 ≤ (runPage calls s0).currentPage ∧
    (runPage calls s0).currentPage
      ≤ max 1 ⌈((runPage calls s0).filteredWebsites.length : ℚ) / 50⌉ := by
  refine ⟨?_, ?_, ?_⟩
  · intro h
    rw [← totalPages_cast] at h
    simp only [changePage]
    rw [if_pos h]
  · intro h
    rw [← totalPages_cast] at h
    simp only [changePage]
    rw [if_neg h]
  · rw [← totalPages_cast]
    apply runPage_inRange
    constructor
    · rw [h0]
    · rw [h0]
      exact le_max_left _ _

/-- Witness of C6: from page 1 of a one-record list, a call of `changePage(2)`
followed by a call of `applyFilters`. -/
theorem changePage_bounds_witness :
    (⟨[paddedSite], [paddedSite], 1⟩ : State).currentPage = 1 ∧
    1 ≤ (runPage [.changePage 2, .applyFilters emptyInputs]
      ⟨[paddedSite], [paddedSite], 1⟩).currentPage ∧
    (runPage [.changePage 2, .applyFilters emptyInputs]
      ⟨[paddedSite], [paddedSite], 1⟩).currentPage
      ≤ max 1 ⌈((runPage [.changePage 2, .applyFilters emptyInputs]
        ⟨[paddedSite], [paddedSite], 1⟩).filteredWebsites.length : ℚ) / 50⌉ :=
  ⟨rfl, (changePage_bounds ⟨[], [], 1⟩ 0 [.changePage 2, .applyFilters emptyInputs]
    ⟨[paddedSite], [paddedSite], 1⟩ rfl).2.2⟩

/-! ## C7: `addToCart` -/

theorem find?_domain_eq_none {cart : List CartItem} {domain : String} :
    cart.find? (fun i => i.domain == domain) = none ↔ ∀ i ∈ cart, i.domain ≠ domain := by
  simp [List.find?_eq_none]

/-- C7.  `addToCart(domain, price, type)` leaves the cart unchanged when
`price <= 0`, in particular for `add("x.com", 0, "t")`; otherwise it leaves the
cart unchanged when an item of the cart has that domain; otherwise the new cart
is the old one followed by one item with the given domain, price and type. -/
theorem addToCart_postcondition (cart : List CartItem) (now : Nat) (domain : String)
    (price : JSNum) (type : String) :
    (price.le (.fin 0) = true → addToCart now domain price type cart = cart) ∧
    addToCart now "x.com" (.fin 0) "t" cart = cart ∧
    (price.le (.fin 0) = false → (∃ i ∈ cart, i.domain = domain) →
      addToCart now domain price type cart = cart) ∧
    (price.le (.fin 0) = false → (∀ i ∈ cart, i.domain ≠ domain) →
      ∃ item : CartItem, addToCart now domain price type cart = cart ++ [item] ∧
        item.domain = domain ∧ item.price = price ∧ item.type = type ∧
        item.id = Nat.repr now) := by
  refine ⟨?_, ?_, ?_, ?_⟩
  · intro h
    simp [addToCart, h]
  · simp [addToCart, JSNum.le]
  · rintro h ⟨i, hi, hd⟩
    simp only [addToCart, h, Bool.false_eq_true, if_false]
    cases hf : cart.find? (fun i => i.domain == domain) with
    | some j => rfl
    | none => exact absurd hd (find?_domain_eq_none.1 hf i hi)
  · intro h hnone
    simp only [addToCart, h, Bool.false_eq_true, if_false, find?_domain_eq_none.2 hnone]
    exact ⟨_, rfl, rfl, rfl, rfl, rfl⟩

/-- Witness of C7: a zero price, a domain already in the cart, and a new domain. -/
theorem addToCart_postcondition_witness :
    JSNum.le (.fin 0) (.fin 0) = true ∧
    addToCart 7 "x.com" (.fin 0) "t" [⟨"1", "a.com", .fin 5, "t"⟩]
      = [⟨"1", "a.com", .fin 5, "t"⟩] ∧
    JSNum.le (.fin 10) (.fin 0) = false ∧
    (∃ i ∈ [(⟨"1", "a.com", .fin 5, "t"⟩ : CartItem)], i.domain = "a.com") ∧
    addToCart 7 "a.com" (.fin 10) "t" [⟨"1", "a.com", .fin 5, "t"⟩]
      = [⟨"1", "a.com", .fin 5, "t"⟩] ∧
    (∀ i ∈ [(⟨"1", "a.com", .fin 5, "t"⟩ : CartItem)], i.domain ≠ "x.com") ∧
    ∃ item : CartItem, addToCart 7 "x.com" (.fin 10) "t" [⟨"1", "a.com", .fin 5, "t"⟩]
        = [⟨"1", "a.com", .fin 5, "t"⟩] ++ [item] ∧
      item.domain = "x.com" ∧ item.price = .fin 10 ∧ item.type = "t" ∧
      item.id = Nat.repr 7 :=
  have h0 : JSNum.le (.fin 0) (.fin 0) = true := by simp [JSNum.le]
  have h10 : JSNum.le (.fin 10) (.fin 0) = false := by simp [JSNum.le]
  have hin : ∃ i ∈ [(⟨"1", "a.com", .fin 5, "t"⟩ : CartItem)], i.domain = "a.com" :=
    ⟨_, List.mem_singleton.2 rfl, rfl⟩
  have hout : ∀ i ∈ [(⟨"1", "a.com", .fin 5, "t"⟩ : CartItem)], i.domain ≠ "x.com" := by
    intro i hi
    rw [List.mem_singleton.1 hi]
    decide
  ⟨h0, (addToCart_postcondition _ 7 "x.com" (.fin 0) "t").1 h0, h10, hin,
    (addToCart_postcondition _ 7 "a.com" (.fin 10) "t").2.2.1 h10 hin, hout,
    (addToCart_postcondition _ 7 "x.com" (.fin 10) "t").2.2.2 h10 hout⟩

/-! ## C8: one item per domain -/

/-- No two items of the cart have the same domain. -/
theorem addToCart_distinct (now : Nat) (domain : String) (price : JSNum) (type : String)
    (cart : List CartItem) (h : cart.Pairwise (fun a b => a.domain ≠ b.domain)) :
    (addToCart now domain price type cart).Pairwise (fun a b => a.domain ≠ b.domain) := by
  unfold addToCart
  split
  · exact h
  · cases hf : cart.find? (fun i => i.domain == domain) with
    | some j => exact h
    | none =>
      simp only
      rw [List.pairwise_append]
      refine ⟨h, List.pairwise_singleton _ _, ?_⟩
      intro a ha b hb
      rw [List.mem_singleton.1 hb]
      exact find?_domain_eq_none.1 hf a ha

theorem runCart_distinct (calls : List CartCall) :
    ∀ cart : List CartItem, cart.Pairwise (fun a b => a.domain ≠ b.domain) →
      (runCart calls cart).Pairwise (fun a b => a.domain ≠ b.domain) := by
  induction calls with
  | nil => intro cart h; exact h
  | cons call calls ih =>
    intro cart h
    apply ih
    cases call with
    | add now domain price type => exact addToCart_distinct now domain price type cart h
    | remove id => exact h.filter _

/-- C8.  In every cart reached from the empty cart by `addToCart` and
`removeFromCart` calls no two items have the same domain; two calls of
`add("x.com", 10, "t")` on the empty cart leave a cart of size 1. -/
theorem cart_dedup (calls : List CartCall) (t1 t2 : Nat) :
    (runCart calls []).Pairwise (fun a b => a.domain ≠ b.domain) ∧
    (runCart [.add t1 "x.com" (.fin 10) "t", .add t2 "x.com" (.fin 10) "t"] []).length = 1 := by
  refine ⟨runCart_distinct calls [] List.Pairwise.nil, ?_⟩
  have h10 : JSNum.le (.fin 10) (.fin 0) = false := by simp [JSNum.le]
  simp [runCart, CartCall.run, addToCart, h10]

/-! ## C9: identifiers -/

theorem digitVal_digitChar (k : Nat) (h : k < 10) : digitVal (Nat.digitChar k) = k := by
  interval_cases k <;> rfl

theorem foldl_digits (cs : List Char) :
    ∀ acc : Nat, cs.foldl (fun acc c => acc * 10 + digitVal c) acc
      = acc * 10 ^ cs.length + digitsVal cs := by
  induction cs with
  | nil => intro acc; simp [digitsVal]
  | cons c cs ih =>
    intro acc
    simp only [List.foldl_cons, digitsVal, List.length_cons]
    rw [ih (acc * 10 + digitVal c), ih (0 * 10 + digitVal c)]
    ring

theorem digitsVal_cons (c : Char) (cs : List Char) :
    digitsVal (c :: cs) = digitVal c * 10 ^ cs.length + digitsVal cs := by
  have := foldl_digits cs (0 * 10 + digitVal c)
  simp only [digitsVal, List.foldl_cons] at this ⊢
  rw [this]
  ring

theorem digitsVal_toDigitsCore (fuel : Nat) :
    ∀ (n : Nat) (ds : List Char), n < fuel →
      digitsVal (Nat.toDigitsCore 10 fuel n ds) = n * 10 ^ ds.length + digitsVal ds := by
  induction fuel with
  | zero => intro n ds h; omega
  | succ fuel ih =>
    intro n ds h
    simp only [Nat.toDigitsCore]
    have hmod : digitVal (Nat.digitChar (n % 10)) = n % 10 :=
      digitVal_digitChar _ (Nat.mod_lt _ (by norm_num))
    split
    · rename_i h0
      rw [digitsVal_cons, hmod]
      have : n % 10 = n := by omega
      rw [this]
    · rename_i h0
      have hlt : n / 10 < fuel := by omega
      rw [ih (n / 10) _ hlt, digitsVal_cons, hmod, List.length_cons, pow_succ]
      have hn : n * 10 ^ ds.length = (10 * (n / 10) + n % 10) * 10 ^ ds.length := by
        rw [Nat.div_add_mod]
      rw [hn]
      ring

theorem digitsVal_repr (n : Nat) : digitsVal (Nat.repr n).data = n := by
  have := digitsVal_toDigitsCore (n + 1) n [] (Nat.lt_succ_self n)
  simpa [Nat.repr, Nat.toDigits, List.asString, digitsVal] using this

theorem repr_injective {a b : Nat} (h : Nat.repr a = Nat.repr b) : a = b := by
  rw [← digitsVal_repr a, ← digitsVal_repr b, h]

theorem pushed_ids (cart : List CartItem) (call : CartCall) :
    ((call.pushed cart).map (fun i => i.id)).Sublist ((clockReadings [call]).map Nat.repr) := by
  cases call with
  | add now domain price type =>
    simp only [CartCall.pushed, CartCall.run, addToCart, clockReadings]
    split
    · simp
    · cases cart.find? (fun i => i.domain == domain) with
      | none => simp
      | some j => simp
  | remove id =>
    have : (removeFromCart id cart).length ≤ cart.length := List.length_filter_le _ _
    simp [CartCall.pushed, CartCall.run, clockReadings, List.drop_eq_nil_of_le this]

theorem clockReadings_cons (call : CartCall) (calls : List CartCall) :
    clockReadings (call :: calls) = clockReadings [call] ++ clockReadings calls := by
  cases call <;> simp [clockReadings]

theorem inserted_ids (calls : List CartCall) :
    ∀ cart : List CartItem,
      ((inserted calls cart).map (fun i => i.id)).Sublist
        ((clockReadings calls).map Nat.repr) := by
  induction calls with
  | nil => intro cart; simp [inserted, clockReadings]
  | cons call calls ih =>
    intro cart
    rw [clockReadings_cons, List.map_append]
    simp only [inserted, List.map_append]
    exact (pushed_ids cart call).append (ih _)

theorem run_sublist_pushed (cart : List CartItem) (call : CartCall) :
    (call.run cart).Sublist (cart ++ call.pushed cart) := by
  cases call with
  | add now domain price type =>
    simp only [CartCall.pushed, CartCall.run, addToCart]
    split
    · simp
    · cases cart.find? (fun i => i.domain == domain) with
      | none => simp
      | some j => simp
  | remove id =>
    exact (List.filter_sublist _).trans (List.sublist_append_left _ _)

theorem runCart_sublist_inserted (calls : List CartCall) :
    ∀ cart : List CartItem, (runCart calls cart).Sublist (cart ++ inserted calls cart) := by
  induction calls with
  | nil => intro cart; simp [runCart, inserted]
  | cons call calls ih =>
    intro cart
    have h1 := ih (call.run cart)
    have h2 := (run_sublist_pushed cart call).append_right (inserted calls (call.run cart))
    simp only [inserted, ← List.append_assoc]
    exact h1.trans h2

theorem length_le_filter_id (l : List CartItem) (id : String)
    (h : l.Pairwise (fun a b => a.id ≠ b.id)) :
    l.length ≤ (removeFromCart id l).length + 1 := by
  induction l with
  | nil => simp
  | cons a l ih =>
    rw [List.pairwise_cons] at h
    by_cases ha : a.id = id
    · have hl : removeFromCart id l = l := by
        unfold removeFromCart
        rw [List.filter_eq_self]
        intro b hb
        have := h.1 b hb
        rw [ha] at this
        simpa [bne_iff_ne] using fun hbid => this hbid.symm
      have : removeFromCart id (a :: l) = l := by
        rw [← hl]
        simp [removeFromCart, ha]
      rw [this]
      simp
    · have : removeFromCart id (a :: l) = a :: removeFromCart id l := by
        simp [removeFromCart, ha]
      rw [this]
      have := ih h.2
      simp only [List.length_cons]
      omega

theorem inserted_ids_distinct (calls : List CartCall)
    (hclock : (clockReadings calls).Pairwise (fun a b => a < b)) :
    (inserted calls []).Pairwise (fun a b => a.id ≠ b.id) := by
  have h1 : ((clockReadings calls).map Nat.repr).Pairwise (fun a b => a ≠ b) := by
    rw [List.pairwise_map]
    exact hclock.imp (fun hab heq => absurd (repr_injective heq) (Nat.ne_of_lt hab))
  have h2 := h1.sublist (inserted_ids calls [])
  rwa [List.pairwise_map] at h2

/-- C9 (as amended).  When the clock readings of the `addToCart` calls of a
sequence started on the empty cart are strictly increasing, the items inserted
have pairwise different identifiers, and `removeFromCart(id)` deletes at most one
item of the cart reached. -/
theorem cart_ids_unique (calls : List CartCall)
    (hclock : (clockReadings calls).Pairwise (fun a b => a < b)) (id : String) :
    (inserted calls []).Pairwise (fun a b => a.id ≠ b.id) ∧
    (runCart calls []).length ≤ (removeFromCart id (runCart calls [])).length + 1 := by
  have h := inserted_ids_distinct calls hclock
  refine ⟨h, length_le_filter_id _ id ?_⟩
  have hsub := runCart_sublist_inserted calls []
  rw [List.nil_append] at hsub
  exact h.sublist hsub

/-- Witness of C9: two `addToCart` calls one millisecond apart. -/
theorem cart_ids_unique_witness :
    (clockReadings [.add 1000 "a.com" (.fin 10) "t", .add 1001 "b.com" (.fin 10) "t"]).Pairwise
      (fun a b => a < b) ∧
    (inserted [.add 1000 "a.com" (.fin 10) "t", .add 1001 "b.com" (.fin 10) "t"] []).Pairwise
      (fun a b => a.id ≠ b.id) ∧
    (runCart [.add 1000 "a.com" (.fin 10) "t", .add 1001 "b.com" (.fin 10) "t"] []).length
      ≤ (removeFromCart "1000"
          (runCart [.add 1000 "a.com" (.fin 10) "t", .add 1001 "b.com" (.fin 10) "t"]
            [])).length + 1 :=
  have h : (clockReadings
      [.add 1000 "a.com" (.fin 10) "t", .add 1001 "b.com" (.fin 10) "t"]).Pairwise
      (fun a b => a < b) := by
    simp [clockReadings]
  ⟨h, cart_ids_unique _ h "1000"⟩

/-- C9 as stated fails.  Two `addToCart` calls for different domains with the
same clock reading (a non-decreasing sequence) insert two items with the same
identifier, and `removeFromCart` of that identifier deletes both. -/
theorem cart_ids_collide :
    (clockReadings sameMillisecondCalls).Pairwise (fun a b => a ≤ b) ∧
    ¬ (inserted sameMillisecondCalls []).Pairwise (fun a b => a.id ≠ b.id) ∧
    (runCart sameMillisecondCalls []).length = 2 ∧
    (removeFromCart "1000" (runCart sameMillisecondCalls [])).length = 0 := by
  have h10 : JSNum.le (.fin 10) (.fin 0) = false := by simp [JSNum.le]
  have hrun : runCart sameMillisecondCalls []
      = [⟨"1000", "a.com", .fin 10, "t"⟩, ⟨"1000", "b.com", .fin 10, "t"⟩] := by
    simp [runCart, sameMillisecondCalls, CartCall.run, addToCart, h10]
    decide
  have hins : inserted sameMillisecondCalls []
      = [⟨"1000", "a.com", .fin 10, "t"⟩, ⟨"1000", "b.com", .fin 10, "t"⟩] := by
    simp [inserted, sameMillisecondCalls, CartCall.pushed, CartCall.run, addToCart, h10]
    decide
  refine ⟨by simp [clockReadings, sameMillisecondCalls], ?_, ?_, ?_⟩
  · rw [hins]
    simp
  · rw [hrun]
    rfl
  · rw [hrun]
    rfl

/-! ## C10: ingestion -/

theorem get_setOwn_same (r : Record) (key : String) (v : JSVal) :
    (r.setOwn key v).get key = v := by
  induction r with
  | nil => simp [Record.setOwn, Record.get, List.lookup]
  | cons kw rest ih =>
    obtain ⟨k, w⟩ := kw
    by_cases h : k = key
    · subst h
      simp [Record.setOwn, Record.get, List.lookup]
    · have h' : (key == k) = false := by
        rw [beq_eq_false_iff_ne]
        exact fun e => h e.symm
      have h2 : (k == key) = false := by
        rw [beq_eq_false_iff_ne]
        exact h
      simp only [Record.setOwn, h2, Bool.false_eq_true, if_false]
      simp only [Record.get, List.lookup, h'] at ih ⊢
      exact ih

theorem get_setOwn_other (r : Record) (key key' : String) (v : JSVal) (hne : key' ≠ key) :
    (r.setOwn key v).get key' = r.get key' := by
  induction r with
  | nil =>
    have h' : (key' == key) = false := by
      rw [beq_eq_false_iff_ne]
      exact hne
    simp [Record.setOwn, Record.get, List.lookup, h']
  | cons kw rest ih =>
    obtain ⟨k, w⟩ := kw
    by_cases h : k = key
    · subst h
      have h' : (key' == k) = false := by
        rw [beq_eq_false_iff_ne]
        exact hne
      simp [Record.setOwn, Record.get, List.lookup, h']
    · have h2 : (k == key) = false := by
        rw [beq_eq_false_iff_ne]
        exact h
      simp only [Record.setOwn, h2, Bool.false_eq_true, if_false]
      simp only [Record.get, List.lookup] at ih ⊢
      cases hk : key' == k with
      | true => rfl
      | false => exact ih

theorem get_set_same (r : Record) (key : String) (v : JSVal) (h : key ≠ "__proto__") :
    (r.set key v).get key = v := by
  have h' : (key == "__proto__") = false := by
    rw [beq_eq_false_iff_ne]
    exact h
  simp only [Record.set, h', Bool.false_eq_true, if_false]
  exact get_setOwn_same r key v

theorem get_set_other (r : Record) (key key' : String) (v : JSVal) (hne : key' ≠ key) :
    (r.set key v).get key' = r.get key' := by
  unfold Record.set
  split
  · rfl
  · exact get_setOwn_other r key key' v hne

theorem fillSite_get_absent (c : List Cell) (label : String) :
    ∀ (headers : List String) (index : Nat) (acc : Record), label ∉ headers →
      (fillSite c headers index acc).get label = acc.get label := by
  intro headers
  induction headers with
  | nil => intro index acc _; rfl
  | cons h rest ih =>
    intro index acc hmem
    rw [List.mem_cons, not_or] at hmem
    simp only [fillSite]
    rw [ih _ _ hmem.2, get_set_other _ _ _ _ hmem.1]

theorem fillSite_get_last (c : List Cell) (label : String) (hproto : label ≠ "__proto__") :
    ∀ (headers : List String) (index : Nat) (acc : Record) (i : Nat),
      headers.get? i = some label → (∀ j, i < j → headers.get? j ≠ some label) →
      (fillSite c headers index acc).get label = cellValue (c.get? (index + i)) := by
  intro headers
  induction headers with
  | nil => intro index acc i hi; simp at hi
  | cons h rest ih =>
    intro index acc i hi hlast
    cases i with
    | zero =>
      simp only [List.get?_cons_zero, Option.some.injEq] at hi
      subst hi
      have hnot : h ∉ rest := by
        intro hmem
        obtain ⟨j, hj⟩ := List.get?_of_mem hmem
        exact hlast (j + 1) (Nat.succ_pos j) (by simpa using hj)
      simp only [fillSite]
      rw [fillSite_get_absent c h rest _ _ hnot, get_set_same _ _ _ hproto, Nat.add_zero]
    | succ i =>
      simp only [List.get?_cons_succ] at hi
      simp only [fillSite]
      rw [ih (index + 1) _ i hi (fun j hj => by
        have := hlast (j + 1) (Nat.succ_lt_succ hj)
        simpa using this)]
      congr 2
      omega

theorem pushRows_eq (headers : List String) (rows : List (Option Row)) :
    ∀ acc : List Record,
      pushRows headers rows acc = acc ++ rows.filterMap (rowRecord headers) := by
  induction rows with
  | nil => intro acc; simp [pushRows]
  | cons row rows ih =>
    intro acc
    rcases row with _ | ⟨_ | c⟩
    · simp [pushRows, rowRecord, ih]
    · simp [pushRows, rowRecord, ih]
    · by_cases hv : validWebsite (buildSite headers c) = true
      · simp [pushRows, rowRecord, ih, hv]
      · simp [pushRows, rowRecord, ih, hv]

theorem trim_ne_empty {s : String} (h : trim s ≠ "") : s ≠ "" := by
  rintro rfl
  exact h rfl

theorem validWebsite_str (site : Record) (s : String) (h : site.get "WEBSITE" = .str s) :
    validWebsite site = true ↔ trim s ≠ "" := by
  simp only [validWebsite, h, JSVal.truthy, JSVal.toStr, Bool.and_eq_true, bne_iff_ne, ne_eq,
    Bool.not_eq_true', List.isEmpty_eq_false]
  constructor
  · exact fun h => h.2
  · intro ht
    refine ⟨?_, ht⟩
    intro hs
    exact trim_ne_empty ht (String.ext hs)

/-- C10 (as amended).  The record list of the load callback holds, in row order,
exactly one record for each row that has a cell array and whose domain value is
truthy and not blank after trimming, and none for any other row; for a domain
value that is a string the test is that it is not blank.  The record of a row
maps each column label other than `__proto__` to the row's cell value at the
last index that carries the label, with the empty string substituted for a
`null`, `undefined` or missing cell; a key that is neither a column label nor a
property name of `Object.prototype` reads `undefined`. -/
theorem ingestion_filter (table : Table) (c : List Cell) (label : String) (i : Nat)
    (hlabel : (headersOf table.cols).get? i = some label)
    (hlast : ∀ j, i < j → (headersOf table.cols).get? j ≠ some label)
    (hproto : label ≠ "__proto__") :
    mappedData table = table.rows.filterMap (rowRecord (headersOf table.cols)) ∧
    (∀ row r, rowRecord (headersOf table.cols) row = some r ↔
      ∃ cells, row = some ⟨some cells⟩ ∧ r = buildSite (headersOf table.cols) cells ∧
        (r.get "WEBSITE").truthy = true ∧ trim (r.get "WEBSITE").toStr ≠ "") ∧
    (∀ (site : Record) (s : String), site.get "WEBSITE" = .str s →
      (validWebsite site = true ↔ trim s ≠ "")) ∧
    (buildSite (headersOf table.cols) c).get label = cellValue (c.get? i) ∧
    (∀ key, key ∉ headersOf table.cols → key ∉ objectPrototypeNames →
      (buildSite (headersOf table.cols) c).get key = .undefined) ∧
    cellValue none = .str "" ∧ cellValue (some none) = .str "" ∧
    cellValue (some (some .null)) = .str "" ∧
    cellValue (some (some .undefined)) = .str "" ∧
    (∀ v, v ≠ .null → v ≠ .undefined → cellValue (some (some v)) = v) := by
  refine ⟨?_, ?_, validWebsite_str, ?_, ?_, rfl, rfl, rfl, rfl, ?_⟩
  · simp [mappedData, pushRows_eq]
  · intro row r
    rcases row with _ | ⟨_ | cells⟩
    · simp [rowRecord]
    · simp [rowRecord]
    · simp only [rowRecord]
      constructor
      · intro h
        split at h
        · rename_i hv
          cases h
          simp only [validWebsite, Bool.and_eq_true, bne_iff_ne, ne_eq] at hv
          exact ⟨cells, rfl, rfl, hv.1, hv.2⟩
        · cases h
      · rintro ⟨cells', hrow, rfl, ht, hb⟩
        cases hrow
        have hv : validWebsite (buildSite (headersOf table.cols) cells) = true := by
          simp only [validWebsite, Bool.and_eq_true, bne_iff_ne, ne_eq]
          exact ⟨ht, hb⟩
        rw [if_pos hv]
  · have := fillSite_get_last c label hproto (headersOf table.cols) 0 [] i hlabel hlast
    simpa [buildSite] using this
  · intro key hkey _
    have := fillSite_get_absent c key (headersOf table.cols) 0 [] hkey
    simpa [buildSite, Record.get] using this
  · intro v h1 h2
    simp [cellValue, h1, h2]

/-- Witness of C10: the table with two columns labelled `""`, at the last of them. -/
theorem ingestion_filter_witness :
    (headersOf twoNotesTable.cols).get? 2 = some "" ∧
    (∀ j, 2 < j → (headersOf twoNotesTable.cols).get? j ≠ some "") ∧
    ("" : String) ≠ "__proto__" ∧
    mappedData twoNotesTable
      = twoNotesTable.rows.filterMap (rowRecord (headersOf twoNotesTable.cols)) ∧
    (buildSite (headersOf twoNotesTable.cols)
        [some (.str "a.com"), some (.str "first"), some (.str "second")]).get ""
      = cellValue
          ([some (JSVal.str "a.com"), some (.str "first"), some (.str "second")].get? 2) :=
  have h1 : (headersOf twoNotesTable.cols).get? 2 = some "" := rfl
  have h2 : ∀ j, 2 < j → (headersOf twoNotesTable.cols).get? j ≠ some "" := by
    intro j hj
    have : (headersOf twoNotesTable.cols).get? j = none :=
      List.get?_eq_none.2 (by simpa [headersOf, twoNotesTable] using hj)
    rw [this]
    exact fun h => Option.noConfusion h
  have h3 : ("" : String) ≠ "__proto__" := by decide
  have h := ingestion_filter twoNotesTable
    [some (.str "a.com"), some (.str "first"), some (.str "second")] "" 2 h1 h2 h3
  ⟨h1, h2, h3, h.1, h.2.2.2.1⟩

/-- C10 as stated fails.  A row whose domain cell holds the non-empty text `" "`
produces no record; and with two columns labelled `""` the record maps the label
to the cell of the second of them, not to the cell at the index of the first. -/
theorem ingestion_as_stated_fails :
    (cellValue ([some (JSVal.str " ")].get? 0) = .str " " ∧ (" " : String) ≠ "" ∧
      mappedData blankDomainTable = []) ∧
    ((headersOf twoNotesTable.cols).get? 1 = some "" ∧
      mappedData twoNotesTable = [[("WEBSITE", .str "a.com"), ("", .str "second")]] ∧
      Record.get [("WEBSITE", .str "a.com"), ("", .str "second")] ""
        ≠ cellValue
          ([some (JSVal.str "a.com"), some (.str "first"), some (.str "second")].get? 1)) := by
  refine ⟨⟨rfl, by decide, ?_⟩, rfl, ?_, by decide⟩
  · decide
  · decide

/-! ## C11: quotes in the domain -/

theorem dquote_not_mem_replaceQuotChars (cs : List Char) :
    dquote ∉ replaceQuotChars cs := by
  induction cs with
  | nil => simp [replaceQuotChars]
  | cons c cs ih =>
    simp only [replaceQuotChars, List.mem_append, not_or]
    refine ⟨?_, ih⟩
    split
    · decide
    · rename_i hc
      rw [List.mem_singleton]
      exact fun h => hc h.symm

theorem squote_mem_replaceQuotChars (cs : List Char) (h : squote ∈ cs) :
    squote ∈ replaceQuotChars cs := by
  induction cs with
  | nil => cases h
  | cons c cs ih =>
    simp only [replaceQuotChars, List.mem_append]
    rcases List.mem_cons.1 h with rfl | h
    · left
      rw [if_neg (by decide)]
      exact List.mem_singleton.2 rfl
    · exact Or.inr (ih h)

/-- The replacement keeps a single quote of a text domain in the argument. -/
theorem squote_mem_safeDomain (s : String) (hs : squote ∈ s.data) :
    squote ∈ (safeDomain [("WEBSITE", .str s)]).data := by
  have hne : s.data ≠ [] := fun h => by rw [h] at hs; cases hs
  have hw : websiteDomain [("WEBSITE", .str s)] = .str s := by
    simp [websiteDomain, Record.get, List.lookup, JSVal.or, JSVal.truthy, hne]
  simp only [safeDomain, hw, JSVal.toStr]
  exact squote_mem_replaceQuotChars _ hs

/-- C11 at its failing input.  For the record whose domain is `a"b'c.com` the
link target holds the raw double quote, and the argument of the add-to-cart and
buy-now actions is `a&quot;b'c.com`, which holds the raw single quote.  What the
replacement does achieve: for every record the argument holds no double quote. -/
theorem renderTablePage_quotes_not_neutralized :
    dquote ∈ (linkTarget quotedSite).data ∧
    safeDomain quotedSite = ⟨"a&quot;b".data ++ [squote] ++ "c.com".data⟩ ∧
    squote ∈ (safeDomain quotedSite).data ∧
    (∀ site : Record, dquote ∉ (safeDomain site).data) := by
  refine ⟨by decide, by decide, by decide, ?_⟩
  intro site
  exact dquote_not_mem_replaceQuotChars _

end Marketplace
